import Mathlib

/-!
Verification of the commit-to-ticket grouping and prompt-construction core of
the stand-up-summary dashboard.

The development shallowly embeds the TypeScript sources:
  * `lib/jira.ts`   — ticket extraction (`JIRA_TICKET_REGEX`, `BRANCH_TICKET_REGEX`,
    `extractJiraTickets`, `extractTicketFromBranch`, `containsJiraTicket`);
  * `lib/utils.ts` (llm part) — `formatDiffForPrompt`, `buildPromptFromCommits`,
    `buildPromptFromTicketGroups`, the provider adapters `callOpenAI`,
    `callAnthropic`, `callGoogle`, `generateSummary`, `calculateComplexity`.

Strings are modelled as `List Char`.  JavaScript regular-expression matching for
the two concrete patterns of the source is implemented directly; for both
patterns greedy matching is deterministic (no backtracking can succeed), which
the comments at the definitions justify.  JavaScript runtime values produced by
`JSON.parse` are modelled by the inductive type `JVal`, and the adapters'
field coercions (`x || []`, `Array.isArray(x) ? x : []`) operate on `JVal`.
-/

namespace StandUp

/-- Character class `[A-Z]`. -/
def isUpperAZ (c : Char) : Bool := 'A' ≤ c && c ≤ 'Z'

/-- Character class `[a-z]`. -/
def isLowerAZ (c : Char) : Bool := 'a' ≤ c && c ≤ 'z'

/-- Character class `\d` = `[0-9]`. -/
def isDigit09 (c : Char) : Bool := '0' ≤ c && c ≤ '9'

/-- Character class `[A-Z0-9]`. -/
def isUpperDigit (c : Char) : Bool := isUpperAZ c || isDigit09 c

/-- Character class `[A-Z]` under the `i` flag: any ASCII letter. -/
def isLetter (c : Char) : Bool := isUpperAZ c || isLowerAZ c

/-- Character class `[A-Z0-9]` under the `i` flag. -/
def isLetterDigit (c : Char) : Bool := isLetter c || isDigit09 c

/-- `String.prototype.toUpperCase` restricted to ASCII (the characters the
ticket regexes can produce). -/
def asciiUpperChar (c : Char) : Char :=
  if isLowerAZ c then Char.ofNat (c.toNat - 32) else c

def asciiUpper (s : List Char) : List Char := s.map asciiUpperChar

/-- Insertion-order deduplication, as performed by `[...new Set(xs)]` in
JavaScript: the first occurrence of each element is kept.  `seen` is the
set of elements already emitted. -/
def dedupFirstAux {α : Type} [DecidableEq α] (seen : List α) : List α → List α
  | [] => []
  | x :: xs =>
    if x ∈ seen then dedupFirstAux seen xs
    else x :: dedupFirstAux (x :: seen) xs

def dedupFirst {α : Type} [DecidableEq α] (l : List α) : List α :=
  dedupFirstAux [] l

/-!
### `JIRA_TICKET_REGEX = /[A-Z][A-Z0-9]+-\d+/g`

A match attempt at a fixed position is deterministic: after the greedy run of
`[A-Z0-9]+` the next character is outside `[A-Z0-9]`, and giving characters
back to the engine would place a `[A-Z0-9]` character where the literal `-`
is required, so no backtracking of `[A-Z0-9]+` can succeed; likewise the
greedy `\d+` is followed by the end of the pattern, so it never gives back
characters.  Hence a match at a position is: one `[A-Z]` character, the
maximal nonempty run of `[A-Z0-9]`, a literal `-`, the maximal nonempty run
of digits.
-/

/-- Attempt to match `[A-Z][A-Z0-9]+-\d+` at the head of the text.  Returns
the matched characters together with the remaining text. -/
def matchAt : List Char → Option (List Char × List Char)
  | [] => none
  | c :: rest =>
    if isUpperAZ c then
      let run := rest.takeWhile isUpperDigit
      if run = [] then none
      else
        match rest.dropWhile isUpperDigit with
        | [] => none
        | d :: rest2 =>
          if d = '-' then
            let digs := rest2.takeWhile isDigit09
            if digs = [] then none
            else some (c :: (run ++ '-' :: digs), rest2.dropWhile isDigit09)
          else none
    else none

/-- All matches of the global regex, scanning left to right and resuming
after each match (the `lastIndex` discipline of a JavaScript global regex
inside `String.prototype.match`).  `fuel` bounds the recursion; `fuel =
text.length` always suffices because every step consumes at least one
character. -/
def matchAllF : Nat → List Char → List (List Char)
  | 0, _ => []
  | _, [] => []
  | Nat.succ fuel, c :: rest =>
    match matchAt (c :: rest) with
    | some (m, r) => m :: matchAllF fuel r
    | none => matchAllF fuel rest

/-- `text.match(JIRA_TICKET_REGEX)` as a list of matched substrings. -/
def matchAll (text : List Char) : List (List Char) :=
  matchAllF text.length text

/-- First match of the ticket regex anywhere in the text, with the remaining
text after it (used for `RegExp.prototype.test`). -/
def firstTicketMatch : List Char → Option (List Char × List Char)
  | [] => none
  | c :: rest =>
    match matchAt (c :: rest) with
    | some p => some p
    | none => firstTicketMatch rest

/-- `extractJiraTickets` (lib/jira.ts): match all ticket tokens, uppercase
them, and deduplicate keeping first occurrences. -/
def extractJiraTickets (text : List Char) : List (List Char) :=
  if text = [] then []
  else dedupFirst ((matchAll text).map asciiUpper)

/-!
### `BRANCH_TICKET_REGEX = /(?:^|\/)?([A-Z][A-Z0-9]+-\d+)(?:-|\/|$)/i`

As above, the greedy `[A-Z0-9]+` (case-insensitive) cannot give back
characters (a shortened run leaves a class character where `-` is required),
and the greedy `\d+` cannot either (a shortened run leaves a digit where the
tail demands `-`, `/` or end of input).  The optional leading `(?:^|\/)?`
makes the attempt at a position `p` reduce to: if the character at `p` is
`/`, attempt the core at `p+1`, otherwise attempt the core at `p` (the `^`
alternative at position 0 coincides with the empty alternative there). -/

/-- Attempt the core `([A-Z][A-Z0-9]+-\d+)(?:-|\/|$)` (case-insensitively) at
the head of the text, returning the capture group. -/
def tryCore : List Char → Option (List Char)
  | [] => none
  | c :: rest =>
    if isLetter c then
      let run := rest.takeWhile isLetterDigit
      if run = [] then none
      else
        match rest.dropWhile isLetterDigit with
        | [] => none
        | d :: rest2 =>
          if d = '-' then
            let digs := rest2.takeWhile isDigit09
            if digs = [] then none
            else
              match rest2.dropWhile isDigit09 with
              | [] => some (c :: (run ++ '-' :: digs))
              | t :: _ => if t = '-' || t = '/' then some (c :: (run ++ '-' :: digs)) else none
          else none
    else none

/-- Scan for the first position where `BRANCH_TICKET_REGEX` matches,
returning capture group 1. -/
def branchScan : List Char → Option (List Char)
  | [] => none
  | c :: rest =>
    match (if c = '/' then tryCore rest else tryCore (c :: rest)) with
    | some cap => some cap
    | none => branchScan rest

/-- `extractTicketFromBranch` (lib/jira.ts): branch-specific pattern first,
falling back to the first general match. -/
def extractTicketFromBranch (branchName : List Char) : Option (List Char) :=
  if branchName = [] then none
  else
    match branchScan branchName with
    | some cap => some (asciiUpper cap)
    | none =>
      match extractJiraTickets branchName with
      | [] => none
      | t :: _ => some t

/-!
### Stateful regex probes (claim C8)

`JIRA_TICKET_REGEX` carries the `g` flag, so `RegExp.prototype.test` starts
searching at the regex's persistent `lastIndex` and updates it.
`containsJiraTicket` resets `lastIndex` to 0 before testing, and
`String.prototype.match` with a global regex resets `lastIndex` itself and
leaves it at 0.  The state is modelled explicitly as a `Nat`. -/

/-- `JIRA_TICKET_REGEX.test(text)` with explicit `lastIndex` state:
searching starts at `lastIndex`; on success `lastIndex` becomes the match
end, on failure it is reset to 0. -/
def regexTestG (lastIndex : Nat) (text : List Char) : Bool × Nat :=
  if lastIndex > text.length then (false, 0)
  else
    match firstTicketMatch (text.drop lastIndex) with
    | some (_, r) => (true, text.length - r.length)
    | none => (false, 0)

/-- `containsJiraTicket` (lib/jira.ts): the empty-text early return leaves
the regex state untouched; otherwise `lastIndex` is reset to 0 and the test
runs. -/
def containsJiraTicket (st : Nat) (text : List Char) : Bool × Nat :=
  if text = [] then (false, st)
  else regexTestG 0 text

/-- `extractJiraTickets` with the regex-state threading made explicit:
`String.prototype.match` with a global flag resets `lastIndex` and leaves it
at 0; the empty-text early return does not touch the regex. -/
def extractJiraTicketsSt (st : Nat) (text : List Char) :
    List (List Char) × Nat :=
  if text = [] then ([], st)
  else (extractJiraTickets text, 0)

/-- A full ticket token: the text that `matchAt` matches in its entirety. -/
def isTicketToken (t : List Char) : Bool :=
  decide (matchAt t = some (t, []))

/-! ### Elementary `takeWhile` / `dropWhile` facts -/

theorem takeWhile_append_of_all {p : Char → Bool} :
    ∀ {a b : List Char}, (∀ x ∈ a, p x = true) →
      (a ++ b).takeWhile p = a ++ b.takeWhile p
  | [], _, _ => rfl
  | x :: a, b, h => by
    have hx : p x = true := h x (List.mem_cons_self x a)
    simp only [List.cons_append, List.takeWhile_cons, hx, if_true, List.cons.injEq, true_and]
    exact takeWhile_append_of_all fun y hy => h y (List.mem_cons_of_mem x hy)

theorem dropWhile_append_of_all {p : Char → Bool} :
    ∀ {a b : List Char}, (∀ x ∈ a, p x = true) →
      (a ++ b).dropWhile p = b.dropWhile p
  | [], _, _ => rfl
  | x :: a, b, h => by
    have hx : p x = true := h x (List.mem_cons_self x a)
    simp only [List.cons_append, List.dropWhile_cons, hx, if_true]
    exact dropWhile_append_of_all fun y hy => h y (List.mem_cons_of_mem x hy)

theorem takeWhile_eq_nil_of_head {p : Char → Bool} {l : List Char}
    (h : ∀ c, l.head? = some c → p c = false) : l.takeWhile p = [] := by
  cases l with
  | nil => rfl
  | cons x t =>
    have := h x rfl
    simp [List.takeWhile_cons, this]

theorem dropWhile_eq_self_of_head {p : Char → Bool} {l : List Char}
    (h : ∀ c, l.head? = some c → p c = false) : l.dropWhile p = l := by
  cases l with
  | nil => rfl
  | cons x t =>
    have := h x rfl
    simp [List.dropWhile_cons, this]

theorem mem_of_mem_takeWhile {p : Char → Bool} :
    ∀ {l : List Char} {x : Char}, x ∈ l.takeWhile p → p x = true
  | a :: t, x, h => by
    cases ha : p a with
    | true =>
      rw [List.takeWhile_cons, if_pos ha] at h
      rcases List.mem_cons.mp h with h | h
      · exact h ▸ ha
      · exact mem_of_mem_takeWhile h
    | false =>
      rw [List.takeWhile_cons, if_neg (by simp [ha])] at h
      cases h

theorem head_dropWhile_false {p : Char → Bool} :
    ∀ {l : List Char} {c : Char}, (l.dropWhile p).head? = some c → p c = false
  | a :: t, c, h => by
    cases ha : p a with
    | true =>
      rw [List.dropWhile_cons, if_pos ha] at h
      exact head_dropWhile_false h
    | false =>
      rw [List.dropWhile_cons, if_neg (by simp [ha])] at h
      cases h
      exact ha

/-! ### Structure of `matchAt` matches -/

/-- Destructured form of a successful `matchAt`. -/
theorem matchAt_some {l m r : List Char} (h : matchAt l = some (m, r)) :
    ∃ c rest rest2,
      l = c :: rest ∧ isUpperAZ c = true ∧
      rest.takeWhile isUpperDigit ≠ [] ∧
      rest.dropWhile isUpperDigit = '-' :: rest2 ∧
      rest2.takeWhile isDigit09 ≠ [] ∧
      m = c :: (rest.takeWhile isUpperDigit ++ '-' :: rest2.takeWhile isDigit09) ∧
      r = rest2.dropWhile isDigit09 := by
  cases l with
  | nil => simp [matchAt] at h
  | cons c rest =>
    refine ⟨c, rest, ?_⟩
    simp only [matchAt] at h
    split at h
    · split at h
      · cases h
      · split at h
        · cases h
        · split at h
          · split at h
            · cases h
            · rename_i hc hrun x d rest2 hd hdash hdigs
              simp only [Option.some.injEq, Prod.mk.injEq] at h
              subst hdash
              exact ⟨rest2, rfl, hc, hrun, hd, hdigs, h.1.symm, h.2.symm⟩
          · cases h
    · cases h

theorem matchAt_append {l m r : List Char} (h : matchAt l = some (m, r)) :
    l = m ++ r := by
  obtain ⟨c, rest, rest2, hl, _, _, hd, _, hm, hr⟩ := matchAt_some h
  subst hl hm hr
  have e1 : rest = rest.takeWhile isUpperDigit ++ '-' :: rest2 := by
    conv_lhs => rw [← List.takeWhile_append_dropWhile (p := isUpperDigit) (l := rest)]
    rw [hd]
  have e2 : rest2 = rest2.takeWhile isDigit09 ++ rest2.dropWhile isDigit09 :=
    (List.takeWhile_append_dropWhile (p := isDigit09) (l := rest2)).symm
  conv_lhs => rw [e1]
  simp [List.append_assoc, ← e2]

theorem isUpperDigit_dash : isUpperDigit '-' = false := by decide

theorem isDigit09_dash : isDigit09 '-' = false := by decide

theorem isUpperDigit_of_upper {c : Char} (h : isUpperAZ c = true) :
    isUpperDigit c = true := by
  simp [isUpperDigit, h]

theorem isUpperDigit_of_digit {c : Char} (h : isDigit09 c = true) :
    isUpperDigit c = true := by
  simp [isUpperDigit, h]

/-- Every character of a successful match is in `[A-Z0-9]` or is the dash. -/
theorem matchAt_chars {l m r : List Char} (h : matchAt l = some (m, r)) :
    ∀ x ∈ m, isUpperDigit x = true ∨ x = '-' := by
  obtain ⟨c, rest, rest2, _, hc, _, _, _, hm, _⟩ := matchAt_some h
  subst hm
  intro x hx
  rcases List.mem_cons.mp hx with hx | hx
  · exact Or.inl (hx ▸ isUpperDigit_of_upper hc)
  · rcases List.mem_append.mp hx with hx | hx
    · exact Or.inl (mem_of_mem_takeWhile hx)
    · rcases List.mem_cons.mp hx with hx | hx
      · exact Or.inr hx
      · exact Or.inl (isUpperDigit_of_digit (mem_of_mem_takeWhile hx))

/-- If a list with a dash-free left part and a dash-free right part is split
at a dash in two ways, the splits agree. -/
theorem append_dash_inj : ∀ {a b u v : List Char},
    '-' ∉ a → '-' ∉ b → a ++ '-' :: b = u ++ '-' :: v → a = u ∧ b = v
  | [], b, [], v, _, _, h => by simpa using h
  | [], b, u :: us, v, _, hb, h => by
    simp only [List.nil_append, List.cons_append, List.cons.injEq] at h
    exact absurd (h.2 ▸ List.mem_append_right us (List.mem_cons_self '-' v))
      (h.1 ▸ hb)
  | a :: as, b, [], v, ha, _, h => by
    simp only [List.cons_append, List.nil_append, List.cons.injEq] at h
    exact absurd (List.mem_cons_self a as) (h.1 ▸ ha)
  | a :: as, b, u :: us, v, ha, hb, h => by
    simp only [List.cons_append, List.cons.injEq] at h
    have := append_dash_inj (fun hm => ha (List.mem_cons_of_mem a hm)) hb h.2
    exact ⟨by rw [h.1, this.1], this.2⟩

/-- A successful match, matched again from its own start, matches itself
entirely: matches are full ticket tokens. -/
theorem matchAt_self {l m r : List Char} (h : matchAt l = some (m, r)) :
    matchAt m = some (m, []) := by
  obtain ⟨c, rest, rest2, _, hc, hrun, hd, hdigs, hm, _⟩ := matchAt_some h
  subst hm
  have hallrun : ∀ x ∈ rest.takeWhile isUpperDigit, isUpperDigit x = true :=
    fun x hx => mem_of_mem_takeWhile hx
  have halldigs : ∀ x ∈ rest2.takeWhile isDigit09, isDigit09 x = true :=
    fun x hx => mem_of_mem_takeWhile hx
  have htw : (rest.takeWhile isUpperDigit ++ '-' :: rest2.takeWhile isDigit09).takeWhile
      isUpperDigit = rest.takeWhile isUpperDigit := by
    rw [takeWhile_append_of_all hallrun]
    simp [List.takeWhile_cons, isUpperDigit_dash]
  have hdw : (rest.takeWhile isUpperDigit ++ '-' :: rest2.takeWhile isDigit09).dropWhile
      isUpperDigit = '-' :: rest2.takeWhile isDigit09 := by
    rw [dropWhile_append_of_all hallrun]
    simp [List.dropWhile_cons, isUpperDigit_dash]
  have htw2 : (rest2.takeWhile isDigit09).takeWhile isDigit09 =
      rest2.takeWhile isDigit09 := List.takeWhile_eq_self_iff.mpr halldigs
  have hdw2 : (rest2.takeWhile isDigit09).dropWhile isDigit09 = [] :=
    List.dropWhile_eq_nil_iff.mpr halldigs
  simp only [matchAt, htw, hdw, htw2, hdw2]
  simp [hc, hrun, hdigs]

theorem isLower_false_of_upper {c : Char} (h : isUpperAZ c = true) :
    isLowerAZ c = false := by
  simp only [isUpperAZ, Bool.and_eq_true, decide_eq_true_eq] at h
  simp only [isLowerAZ, Bool.and_eq_false_iff, decide_eq_false_iff_not]
  exact Or.inl fun hle => absurd (le_trans hle h.2) (by decide)

theorem isLower_false_of_digit {c : Char} (h : isDigit09 c = true) :
    isLowerAZ c = false := by
  simp only [isDigit09, Bool.and_eq_true, decide_eq_true_eq] at h
  simp only [isLowerAZ, Bool.and_eq_false_iff, decide_eq_false_iff_not]
  exact Or.inl fun hle => absurd (le_trans hle h.2) (by decide)

theorem asciiUpperChar_fix {c : Char} (h : isLowerAZ c = false) :
    asciiUpperChar c = c := by
  simp [asciiUpperChar, h]

/-- Uppercasing is the identity on ticket tokens (they are already upper
case). -/
theorem asciiUpper_ticket {t : List Char} (h : isTicketToken t = true) :
    asciiUpper t = t := by
  have hm : matchAt t = some (t, []) := of_decide_eq_true h
  have hchars := matchAt_chars hm
  have : ∀ x ∈ t, asciiUpperChar x = x := by
    intro x hx
    rcases hchars x hx with hc | hc
    · rcases Bool.or_eq_true_iff.mp hc with hc | hc
      · exact asciiUpperChar_fix (isLower_false_of_upper hc)
      · exact asciiUpperChar_fix (isLower_false_of_digit hc)
    · subst hc; rfl
  calc asciiUpper t = t.map id := List.map_congr_left this
  _ = t := List.map_id t

/-- Soundness of the global scan: every reported match is a ticket token
occurring verbatim in the text. -/
theorem mem_matchAllF : ∀ {fuel : Nat} {l m : List Char}, m ∈ matchAllF fuel l →
    (∃ u v, l = u ++ (m ++ v)) ∧ isTicketToken m = true := by
  intro fuel
  induction fuel with
  | zero => intro l m h; simp [matchAllF] at h
  | succ f ih =>
    intro l m h
    cases l with
    | nil => cases h
    | cons c rest =>
      rcases hma : matchAt (c :: rest) with _ | ⟨mm, r⟩
      · rw [matchAllF, hma] at h
        obtain ⟨⟨u, v, huv⟩, ht⟩ := ih h
        exact ⟨⟨c :: u, v, by simp [huv]⟩, ht⟩
      · rw [matchAllF, hma] at h
        rcases List.mem_cons.mp h with h | h
        · subst h
          exact ⟨⟨[], r, by simpa using matchAt_append hma⟩,
            by simp [isTicketToken, matchAt_self hma]⟩
        · obtain ⟨⟨u, v, huv⟩, ht⟩ := ih h
          exact ⟨⟨mm ++ u, v, by rw [matchAt_append hma, huv]; simp⟩, ht⟩

theorem mem_dedupFirstAux {α : Type} [DecidableEq α] {x : α} :
    ∀ (seen l : List α), x ∈ dedupFirstAux seen l ↔ x ∈ l ∧ x ∉ seen := by
  intro seen l
  induction l generalizing seen with
  | nil => simp [dedupFirstAux]
  | cons a t ih =>
    by_cases ha : a ∈ seen
    · rw [dedupFirstAux, if_pos ha, ih]
      constructor
      · rintro ⟨h1, h2⟩
        exact ⟨List.mem_cons_of_mem a h1, h2⟩
      · rintro ⟨h1, h2⟩
        rcases List.mem_cons.mp h1 with h1 | h1
        · exact absurd (h1 ▸ ha) h2
        · exact ⟨h1, h2⟩
    · rw [dedupFirstAux, if_neg ha]
      constructor
      · intro h
        rcases List.mem_cons.mp h with h | h
        · exact ⟨h ▸ List.mem_cons_self a t, h ▸ ha⟩
        · obtain ⟨h1, h2⟩ := (ih (a :: seen)).mp h
          exact ⟨List.mem_cons_of_mem a h1,
            fun hx => h2 (List.mem_cons_of_mem a hx)⟩
      · rintro ⟨h1, h2⟩
        by_cases hx : x = a
        · exact hx ▸ List.mem_cons_self a _
        · rcases List.mem_cons.mp h1 with h1 | h1
          · exact absurd h1 hx
          · exact List.mem_cons_of_mem a
              ((ih (a :: seen)).mpr ⟨h1, fun hx' => by
                rcases List.mem_cons.mp hx' with hx' | hx'
                · exact hx hx'
                · exact h2 hx'⟩)

theorem mem_dedupFirst {α : Type} [DecidableEq α] {x : α} (l : List α) :
    x ∈ dedupFirst l ↔ x ∈ l := by
  rw [dedupFirst, mem_dedupFirstAux]
  simp

/-- Soundness of `extractJiraTickets`: every returned ticket is a full
ticket token of the (case-sensitive) pattern and occurs verbatim in the
input text. -/
theorem extractJiraTickets_sound {text t : List Char}
    (h : t ∈ extractJiraTickets text) :
    isTicketToken t = true ∧ ∃ u v, text = u ++ (t ++ v) := by
  unfold extractJiraTickets at h
  split at h
  · cases h
  · obtain ⟨m, hm, rfl⟩ := List.mem_map.mp ((mem_dedupFirst _).mp h)
    obtain ⟨⟨u, v, huv⟩, ht⟩ := mem_matchAllF hm
    rw [asciiUpper_ticket ht]
    exact ⟨ht, u, v, huv⟩

/-! ### An `SC-1319` occurrence with clean boundaries is always found -/

theorem matchAt_SC (post : List Char)
    (hpost : ∀ c, post.head? = some c → isDigit09 c = false) :
    matchAt ('S' :: 'C' :: '-' :: '1' :: '3' :: '1' :: '9' :: post) =
      some ("SC-1319".data, post) := by
  have h1 : List.takeWhile isUpperDigit ('C' :: '-' :: '1' :: '3' :: '1' :: '9' :: post)
      = ['C'] := by
    rw [List.takeWhile_cons, if_pos (by decide), List.takeWhile_cons, if_neg (by decide)]
  have h2 : List.dropWhile isUpperDigit ('C' :: '-' :: '1' :: '3' :: '1' :: '9' :: post)
      = '-' :: '1' :: '3' :: '1' :: '9' :: post := by
    rw [List.dropWhile_cons, if_pos (by decide), List.dropWhile_cons, if_neg (by decide)]
  have h3 : List.takeWhile isDigit09 ('1' :: '3' :: '1' :: '9' :: post)
      = '1' :: '3' :: '1' :: '9' :: List.takeWhile isDigit09 post := by
    rw [List.takeWhile_cons, if_pos (by decide), List.takeWhile_cons, if_pos (by decide),
      List.takeWhile_cons, if_pos (by decide), List.takeWhile_cons, if_pos (by decide)]
  have h4 : List.dropWhile isDigit09 ('1' :: '3' :: '1' :: '9' :: post)
      = List.dropWhile isDigit09 post := by
    rw [List.dropWhile_cons, if_pos (by decide), List.dropWhile_cons, if_pos (by decide),
      List.dropWhile_cons, if_pos (by decide), List.dropWhile_cons, if_pos (by decide)]
  have h5 : List.takeWhile isDigit09 post = [] := takeWhile_eq_nil_of_head hpost
  have h6 : List.dropWhile isDigit09 post = post := dropWhile_eq_self_of_head hpost
  simp only [matchAt, h1, h2, h3, h4, h5, h6]
  simp [String.data, (by decide : isUpperAZ 'S' = true)]

theorem occ_mem_matchAll (post : List Char)
    (hpost : ∀ c, post.head? = some c → isDigit09 c = false) :
    ∀ (fuel : Nat) (pre : List Char),
      (pre ++ ("SC-1319".data ++ post)).length ≤ fuel →
      (∀ c, pre.getLast? = some c → isUpperDigit c = false) →
      "SC-1319".data ∈ matchAllF fuel (pre ++ ("SC-1319".data ++ post)) := by
  intro fuel
  induction fuel with
  | zero =>
    intro pre hlen _
    exfalso
    simp [String.data] at hlen
  | succ f ih =>
    intro pre hlen hpre
    cases pre with
    | nil =>
      have he : ([] : List Char) ++ ("SC-1319".data ++ post)
          = 'S' :: 'C' :: '-' :: '1' :: '3' :: '1' :: '9' :: post := rfl
      rw [he, matchAllF, matchAt_SC post hpost]
      exact List.mem_cons_self _ _
    | cons c pre' =>
      rw [List.cons_append]
      rcases hma : matchAt (c :: (pre' ++ ("SC-1319".data ++ post))) with _ | ⟨m, r⟩
      · rw [matchAllF, hma]
        refine ih pre' ?_ ?_
        · simp only [List.length_append, List.length_cons] at hlen ⊢
          omega
        · intro c' hc'
          apply hpre
          cases pre' with
          | nil => cases hc'
          | cons x xs => rw [List.getLast?_cons_cons]; exact hc'
      · rw [matchAllF, hma]
        have hocc : ("SC-1319".data).length = 7 := rfl
        have happ : (c :: pre') ++ ("SC-1319".data ++ post) = m ++ r := by
          simpa using matchAt_append hma
        have hm1 : 1 ≤ m.length := by
          obtain ⟨ch, rest, rest2, _, _, _, _, _, hm, _⟩ := matchAt_some hma
          simp [hm]
        have hlens := congrArg List.length happ
        simp only [List.length_append, List.length_cons, hocc] at hlens
        simp only [List.length_append, List.length_cons, hocc] at hlen
        rcases List.append_eq_append_iff.mp happ with ⟨e, he1, he2⟩ | ⟨e, he1, he2⟩
        · -- the match extends at least to the end of `pre`
          cases e with
          | nil =>
            -- the match is exactly `pre`; the occurrence heads the rest
            apply List.mem_cons_of_mem
            have hr : r = "SC-1319".data ++ post := by simpa using he2.symm
            rw [hr]
            refine ih [] ?_ (by intro c' hc'; cases hc')
            have hml : m.length = (c :: pre').length := by rw [he1]; simp
            simp only [List.length_cons] at hml
            have hrlen : r.length = 7 + post.length := by
              rw [hr]
              simp only [List.length_append, hocc]
            simp only [List.length_append, List.length_nil, hocc]
            omega
          | cons ah a'' =>
            -- impossible: the match would swallow the boundary character
            exfalso
            have hair : ah = 'S' := by
              have hx : "SC-1319".data ++ post = ah :: (a'' ++ r) := by simpa using he2
              have := congrArg List.head? hx
              simp [String.data] at this
              exact this.symm
            subst hair
            have hpne : (c :: pre') ≠ ([] : List Char) := by simp
            have hlast := List.dropLast_append_getLast hpne
            set lc := (c :: pre').getLast hpne with hlc
            have hlcmem : lc ∈ m := by
              rw [he1]
              exact List.mem_append_left _ (List.getLast_mem hpne)
            have hlcbad : isUpperDigit lc = false :=
              hpre lc (by rw [← hlast]; simp)
            rcases matchAt_chars hma lc hlcmem with hgood | hdash
            · rw [hgood] at hlcbad; cases hlcbad
            · -- `lc` is the dash; but then a digit must follow, not `S`
              obtain ⟨ch, rest, rest2, _, hch, _, _, _, hm, _⟩ := matchAt_some hma
              have hmdecomp : (ch :: rest.takeWhile isUpperDigit) ++
                  '-' :: rest2.takeWhile isDigit09 =
                  (c :: pre').dropLast ++ '-' :: ('S' :: a'') := by
                calc (ch :: rest.takeWhile isUpperDigit) ++ '-' :: rest2.takeWhile isDigit09
                    = m := by simp [hm]
                  _ = (c :: pre') ++ ('S' :: a'') := by simpa using he1
                  _ = ((c :: pre').dropLast ++ [lc]) ++ ('S' :: a'') := by rw [hlast]
                  _ = (c :: pre').dropLast ++ '-' :: ('S' :: a'') := by
                      rw [hdash]; simp [List.append_assoc]
              have hnd1 : '-' ∉ ch :: rest.takeWhile isUpperDigit := by
                intro hmem
                rcases List.mem_cons.mp hmem with hmem | hmem
                · rw [← hmem] at hch; cases hch
                · have := mem_of_mem_takeWhile hmem
                  rw [isUpperDigit_dash] at this; cases this
              have hnd2 : '-' ∉ rest2.takeWhile isDigit09 := by
                intro hmem
                have := mem_of_mem_takeWhile hmem
                rw [isDigit09_dash] at this; cases this
              have hvv := (append_dash_inj hnd1 hnd2 hmdecomp).2
              have hS : 'S' ∈ rest2.takeWhile isDigit09 := by
                rw [hvv]; exact List.mem_cons_self _ _
              have := mem_of_mem_takeWhile hS
              cases this
        · -- the match lies entirely inside `pre`
          apply List.mem_cons_of_mem
          rw [he2]
          refine ih e ?_ ?_
          · have hrlen := congrArg List.length he2
            simp only [List.length_append, hocc] at hrlen ⊢
            omega
          · intro c' hc'
            apply hpre
            cases e with
            | nil => cases hc'
            | cons x xs =>
              rw [show (c :: pre') = m ++ (x :: xs) from he1,
                List.getLast?_append_of_ne_nil _ (by simp)]
              exact hc'

/-! ## Claims C1, C7, C8 -/

/-- C1 (counterexample): the claim asserts case-insensitive matching, under
which the text "sc-1319" would yield "SC-1319"; but `JIRA_TICKET_REGEX`
carries no `i` flag, and extraction from "sc-1319" returns nothing. -/
theorem c1_counterexample :
    ¬ ("SC-1319".data ∈ extractJiraTickets ("sc-1319".data)) := by decide

/-- C1 (amended): `extractJiraTickets` matches `[A-Z][A-Z0-9]+-\d+`
case-sensitively: every returned ticket is an uppercase ticket token that
occurs verbatim in the input text (the uppercase normalization is the
identity on matches), and a text whose only ticket-like token is lowercase,
such as "sc-1319", yields no tickets. -/
theorem c1_case_sensitive_extraction :
    (∀ text t, t ∈ extractJiraTickets text →
      isTicketToken t = true ∧ ∃ u v, text = u ++ (t ++ v)) ∧
    extractJiraTickets ("sc-1319".data) = [] :=
  ⟨fun _ _ h => extractJiraTickets_sound h, by decide⟩

/-- C1 (witness): the amended theorem instantiated on the uppercase text
"SC-1319". -/
theorem c1_witness :
    isTicketToken ("SC-1319".data) = true ∧
    ∃ u v, "SC-1319".data = u ++ ("SC-1319".data ++ v) :=
  c1_case_sensitive_extraction.1 ("SC-1319".data) ("SC-1319".data) (by decide)

/-- C7 (counterexample): the text "XSC-1319" contains the substring
"SC-1319", but the regex matches the longer token "XSC-1319", so the result
does not contain "SC-1319". -/
theorem c7_counterexample :
    (∃ u v, "XSC-1319".data = u ++ ("SC-1319".data ++ v)) ∧
    ¬ ("SC-1319".data ∈ extractJiraTickets ("XSC-1319".data)) :=
  ⟨⟨"X".data, [], by decide⟩, by decide⟩

/-- C7 (amended): for every text containing an occurrence of "SC-1319" whose
immediately preceding character (if any) is not an uppercase letter or a
digit and whose immediately following character (if any) is not a digit,
`extractJiraTickets` returns a collection containing "SC-1319". -/
theorem c7_sc1319_found (pre post : List Char)
    (hpre : ∀ c, pre.getLast? = some c → isUpperDigit c = false)
    (hpost : ∀ c, post.head? = some c → isDigit09 c = false) :
    "SC-1319".data ∈ extractJiraTickets (pre ++ ("SC-1319".data ++ post)) := by
  unfold extractJiraTickets
  rw [if_neg (fun h =>
    absurd (List.append_eq_nil.mp (List.append_eq_nil.mp h).2).1 (by decide))]
  refine (mem_dedupFirst _).mpr ?_
  refine List.mem_map.mpr ⟨"SC-1319".data, ?_, by decide⟩
  exact occ_mem_matchAll post hpost _ pre (le_refl _) hpre

/-- C7 (witness): "SC-1319" is extracted from "see SC-1319 done". -/
theorem c7_witness :
    "SC-1319".data ∈
      extractJiraTickets ("see ".data ++ ("SC-1319".data ++ " done".data)) :=
  c7_sc1319_found ("see ".data) (" done".data)
    (fun c hc => by
      rw [show ("see ".data).getLast? = some ' ' from rfl] at hc
      cases hc; decide)
    (fun c hc => by
      rw [show (" done".data).head? = some ' ' from rfl] at hc
      cases hc; decide)

/-- C8: ticket extraction carries no stateful match-position side effects
between calls: for every incoming regex state and text, running
`containsJiraTicket` twice in succession yields identical booleans, and
running `extractJiraTickets` twice in succession yields identical results
(the source resets `lastIndex` before each probe, and `String.match` with a
global regex resets it itself). -/
theorem c8_no_regex_state_leak (st : Nat) (text : List Char) :
    (containsJiraTicket ((containsJiraTicket st text).2) text).1 =
      (containsJiraTicket st text).1 ∧
    (extractJiraTicketsSt ((extractJiraTicketsSt st text).2) text).1 =
      (extractJiraTicketsSt st text).1 := by
  by_cases h : text = [] <;>
    simp [containsJiraTicket, extractJiraTicketsSt, h]

/-! ## Data model (lib/github.ts and lib/utils.ts interfaces)

`PullRequest` carries the fields of the frontend's flattened
`pullRequest` record; `DiffFile`/`CommitDiff` carry the fields read by
`formatDiffForPrompt`; `FlattenedCommit` is the frontend commit shape
(the `CommitWithDetails` → `FlattenedCommit` conversion inside
`generateSummary` only renames nested fields, so inputs are modelled in
flattened form throughout). -/

structure PullRequest where
  number : Nat
  title : List Char
  url : List Char
  state : List Char
  merged : Bool
  baseBranch : List Char
  headBranch : List Char
deriving DecidableEq

structure DiffFile where
  filename : List Char
  status : List Char
  additions : Nat
  deletions : Nat
  patch : Option (List Char)
deriving DecidableEq

structure CommitDiff where
  files : List DiffFile
deriving DecidableEq

structure FlattenedCommit where
  sha : List Char
  message : List Char
  author : List Char
  authorEmail : List Char
  date : List Char
  url : List Char
  repoFullName : List Char
  additions : Nat
  deletions : Nat
  filesChanged : Nat
  branchName : Option (List Char) := none
  pullRequest : Option PullRequest := none
  diff : Option CommitDiff := none
deriving DecidableEq

/-! ## `calculateComplexity` (lib/utils.ts) -/

inductive ComplexityLevel
  | simple
  | moderate
  | complex
  | major
deriving DecidableEq

structure ComplexityMetrics where
  totalCommits : Nat
  totalAdditions : Nat
  totalDeletions : Nat
  totalFilesChanged : Nat
  level : ComplexityLevel
  score : Int
deriving DecidableEq

/-- `Math.round`: round half toward positive infinity. -/
def mathRound (q : ℚ) : Int := ⌊q + 1 / 2⌋

def calculateComplexity (commits : List FlattenedCommit) : ComplexityMetrics :=
  let totalCommits := commits.length
  let totalAdditions : Nat := commits.foldl (fun sum c => sum + c.additions) 0
  let totalDeletions : Nat := commits.foldl (fun sum c => sum + c.deletions) 0
  let totalFilesChanged : Nat :=
    commits.foldl (fun sum c => sum + c.filesChanged) 0
  let score : ℚ := (totalCommits : ℚ) * 2 + (totalAdditions : ℚ) / 50 +
    (totalDeletions : ℚ) / 100 + (totalFilesChanged : ℚ)
  let level : ComplexityLevel :=
    if score < 5 then .simple
    else if score < 15 then .moderate
    else if score < 30 then .complex
    else .major
  { totalCommits := totalCommits
    totalAdditions := totalAdditions
    totalDeletions := totalDeletions
    totalFilesChanged := totalFilesChanged
    level := level
    score := mathRound score }

theorem foldl_add_eq_sum (f : FlattenedCommit → Nat) :
    ∀ (l : List FlattenedCommit) (n : Nat),
      l.foldl (fun sum c => sum + f c) n = n + (l.map f).sum
  | [], n => by simp
  | c :: t, n => by
    rw [List.foldl_cons, foldl_add_eq_sum f t]
    simp [Nat.add_assoc]

/-- C3: `calculateComplexity` returns totals equal to the commit count and
the sums of additions, deletions and files changed; the level thresholds
(5/15/30) are applied to the unrounded weighted score
`commits*2 + additions/50 + deletions/100 + filesChanged` and the reported
score is that value rounded to the nearest integer (half up); in particular
10 commits / 600 additions / 50 deletions / 20 files yields reported score
53 with level major, and the empty list yields score 0 with level simple. -/
theorem c3_calculateComplexity :
    (∀ commits : List FlattenedCommit,
      let raw : ℚ := (commits.length : ℚ) * 2 +
        (((commits.map FlattenedCommit.additions).sum : Nat) : ℚ) / 50 +
        (((commits.map FlattenedCommit.deletions).sum : Nat) : ℚ) / 100 +
        (((commits.map FlattenedCommit.filesChanged).sum : Nat) : ℚ)
      (calculateComplexity commits).totalCommits = commits.length ∧
      (calculateComplexity commits).totalAdditions =
        (commits.map FlattenedCommit.additions).sum ∧
      (calculateComplexity commits).totalDeletions =
        (commits.map FlattenedCommit.deletions).sum ∧
      (calculateComplexity commits).totalFilesChanged =
        (commits.map FlattenedCommit.filesChanged).sum ∧
      (calculateComplexity commits).level =
        (if raw < 5 then ComplexityLevel.simple
         else if raw < 15 then ComplexityLevel.moderate
         else if raw < 30 then ComplexityLevel.complex
         else ComplexityLevel.major) ∧
      (calculateComplexity commits).score = mathRound raw) ∧
    (∀ commits : List FlattenedCommit,
      commits.length = 10 →
      (commits.map FlattenedCommit.additions).sum = 600 →
      (commits.map FlattenedCommit.deletions).sum = 50 →
      (commits.map FlattenedCommit.filesChanged).sum = 20 →
      calculateComplexity commits =
        ⟨10, 600, 50, 20, ComplexityLevel.major, 53⟩) ∧
    calculateComplexity [] = ⟨0, 0, 0, 0, ComplexityLevel.simple, 0⟩ := by
  refine ⟨?_, ?_, ?_⟩
  · intro commits
    simp [calculateComplexity, foldl_add_eq_sum]
  · intro commits h1 h2 h3 h4
    simp only [calculateComplexity, foldl_add_eq_sum, Nat.zero_add, h1, h2, h3, h4]
    have hraw : ((10 : Nat) : ℚ) * 2 + ((600 : Nat) : ℚ) / 50 +
        ((50 : Nat) : ℚ) / 100 + ((20 : Nat) : ℚ) = 105 / 2 := by
      norm_num
    rw [hraw]
    have h5 : ¬ ((105 : ℚ) / 2 < 5) := by norm_num
    have h15 : ¬ ((105 : ℚ) / 2 < 15) := by norm_num
    have h30 : ¬ ((105 : ℚ) / 2 < 30) := by norm_num
    rw [if_neg h5, if_neg h15, if_neg h30]
    have hsc : mathRound (105 / 2) = 53 := by
      rw [mathRound]
      norm_num
    rw [hsc]
  · simp only [calculateComplexity, List.foldl_nil, List.length_nil]
    norm_num [mathRound]

/-- C3 (witness): ten identical commits with 60 additions, 5 deletions and
2 files each give totals 10/600/50/20, reported score 53 and level major. -/
theorem c3_witness :
    calculateComplexity (List.replicate 10
      { sha := [], message := [], author := [], authorEmail := [], date := [],
        url := [], repoFullName := [], additions := 60, deletions := 5,
        filesChanged := 2 }) =
      ⟨10, 600, 50, 20, ComplexityLevel.major, 53⟩ :=
  c3_calculateComplexity.2.1 _ (by decide) (by decide) (by decide) (by decide)

/-! ## `formatDiffForPrompt` (lib/utils.ts) -/

/-- Decimal rendering of a number, as in a template literal. -/
def natChars (n : Nat) : List Char := (Nat.repr n).data

/-- `String.prototype.split("\n")`: always returns at least one piece. -/
def splitNl (s : List Char) : List (List Char) :=
  s.foldr
    (fun c acc =>
      if c = '\n' then [] :: acc
      else
        match acc with
        | [] => [[c]]
        | h :: t => (c :: h) :: t)
    [[]]

/-- One rendered file block: header line, then the patch fenced and
truncated to its first 30 lines with an explicit marker (absent patch →
header only). -/
def fileBlock (f : DiffFile) : List Char :=
  ("\n  File: ".data ++ f.filename ++ " (".data ++ f.status ++ ", +".data ++
    natChars f.additions ++ "/-".data ++ natChars f.deletions ++ ")\n".data) ++
  (match f.patch with
   | none => []
   | some p =>
     let lines := splitNl p
     "  ```\n".data ++
     List.intercalate ['\n'] ((lines.take 30).map (fun line => "  ".data ++ line)) ++
     (if lines.length > 30 then "\n  ... (truncated)".data else []) ++
     "\n  ```\n".data)

/-- `formatDiffForPrompt` (the source's `maxFiles` default is 5; callers pass
it explicitly here). -/
def formatDiffForPrompt (diff : CommitDiff) (maxFiles : Nat) : List Char :=
  if diff.files = [] then []
  else
    let files := diff.files.take maxFiles
    let body := files.foldl (fun acc f => acc ++ fileBlock f) []
    body ++
      (if diff.files.length > maxFiles then
        "\n  ... and ".data ++ natChars (diff.files.length - maxFiles) ++
          " more files\n".data
       else [])

theorem foldl_append_eq_join (g : DiffFile → List Char) :
    ∀ (l : List DiffFile) (acc : List Char),
      l.foldl (fun a f => a ++ g f) acc = acc ++ (l.map g).flatten
  | [], acc => by simp
  | f :: t, acc => by
    rw [List.foldl_cons, foldl_append_eq_join g t]
    simp

/-- C9: when the diff has more files than `maxFiles`, `formatDiffForPrompt`
renders exactly the first `maxFiles` files, in order, as file blocks,
followed by a trailing note naming how many more files were omitted. -/
theorem c9_formatDiff_truncation (diff : CommitDiff) (maxFiles : Nat)
    (h : diff.files.length > maxFiles) :
    formatDiffForPrompt diff maxFiles =
      ((diff.files.take maxFiles).map fileBlock).flatten ++
        ("\n  ... and ".data ++ natChars (diff.files.length - maxFiles) ++
          " more files\n".data) ∧
    ((diff.files.take maxFiles).map fileBlock).length = maxFiles := by
  constructor
  · rw [formatDiffForPrompt,
      if_neg (fun hnil => by rw [hnil] at h; simp at h)]
    simp only [foldl_append_eq_join, List.nil_append, if_pos h]
  · rw [List.length_map, List.length_take]
    exact Nat.min_eq_left (Nat.le_of_lt h)

/-- C9 (witness): a diff of 10 files with `maxFiles = 3` renders the first
3 file blocks plus the "... and 7 more files" note. -/
theorem c9_witness :
    formatDiffForPrompt
      ⟨List.replicate 10 ⟨"a.ts".data, "modified".data, 1, 2, none⟩⟩ 3 =
      (((List.replicate 10
          (⟨"a.ts".data, "modified".data, 1, 2, none⟩ : DiffFile)).take 3).map
            fileBlock).flatten ++
        ("\n  ... and ".data ++ natChars 7 ++ " more files\n".data) ∧
    (((List.replicate 10
        (⟨"a.ts".data, "modified".data, 1, 2, none⟩ : DiffFile)).take 3).map
          fileBlock).length = 3 :=
  c9_formatDiff_truncation
    ⟨List.replicate 10 ⟨"a.ts".data, "modified".data, 1, 2, none⟩⟩ 3 (by decide)

/-! ## Commit grouping inside `buildPromptFromCommits` (lib/utils.ts)

The source groups commits into a `Record<string, FlattenedCommit[]>`
(`ticketCommits`) plus an `untrackedCommits` array.  JS object keys of this
non-numeric shape iterate in insertion order, so the record is modelled as
an association list to which new keys are appended. -/

/-- The per-commit candidate ticket list: branch-name ticket, then the PR
head-branch ticket, then the message tickets, deduplicated in order
(`[...new Set([...tickets, ...messageTickets])]`).  `if (c.branchName)` and
`c.pullRequest?.headBranch` treat the empty string as falsy. -/
def commitTickets (c : FlattenedCommit) : List (List Char) :=
  let branchT : List (List Char) :=
    match c.branchName with
    | none => []
    | some b =>
      if b = [] then []
      else
        match extractTicketFromBranch b with
        | some t => [t]
        | none => []
  let prT : List (List Char) :=
    match c.pullRequest with
    | none => []
    | some pr =>
      if pr.headBranch = [] then []
      else
        match extractTicketFromBranch pr.headBranch with
        | some t => [t]
        | none => []
  dedupFirst (branchT ++ prT ++ extractJiraTickets c.message)

/-- `ticketCommits[ticket].push(c)`, creating the key on first sight. -/
def addToGroup : List (List Char × List FlattenedCommit) → List Char →
    FlattenedCommit → List (List Char × List FlattenedCommit)
  | [], t, c => [(t, [c])]
  | (k, l) :: rest, t, c =>
    if k = t then (k, l ++ [c]) :: rest
    else (k, l) :: addToGroup rest t c

/-- Processing of one commit in the `commits.forEach` loop. -/
def groupStep (acc : List (List Char × List FlattenedCommit) ×
    List FlattenedCommit) (c : FlattenedCommit) :
    List (List Char × List FlattenedCommit) × List FlattenedCommit :=
  let ts := commitTickets c
  if ts = [] then (acc.1, acc.2 ++ [c])
  else (ts.foldl (fun gs t => addToGroup gs t c) acc.1, acc.2)

/-- The grouping step of `buildPromptFromCommits`: ticket groups in
first-seen key order plus the untracked commits in input order. -/
def groupCommitsByTicket (commits : List FlattenedCommit) :
    List (List Char × List FlattenedCommit) × List FlattenedCommit :=
  commits.foldl groupStep ([], [])

/-- Lookup of the first (and, with distinct keys, only) entry of a key. -/
def findGroup : List (List Char × List FlattenedCommit) → List Char →
    List FlattenedCommit
  | [], _ => []
  | (k, l) :: rest, t => if k = t then l else findGroup rest t

theorem findGroup_addToGroup (gs : List (List Char × List FlattenedCommit))
    (t t' : List Char) (c : FlattenedCommit) :
    findGroup (addToGroup gs t c) t' =
      if t' = t then findGroup gs t' ++ [c] else findGroup gs t' := by
  induction gs with
  | nil =>
    by_cases h : t' = t
    · subst h; simp [addToGroup, findGroup]
    · have h2 : ¬ (t = t') := fun hh => h hh.symm
      simp [addToGroup, findGroup, h, h2]
  | cons p rest ih =>
    obtain ⟨k, l⟩ := p
    by_cases hk : k = t
    · subst hk
      by_cases h : k = t'
      · subst h; simp [addToGroup, findGroup]
      · have h2 : ¬ (t' = k) := fun hh => h hh.symm
        simp [addToGroup, findGroup, h, h2]
    · rw [addToGroup, if_neg hk]
      by_cases h : k = t'
      · subst h
        have ht : ¬ (k = t) := hk
        simp [findGroup, ht]
      · simp [findGroup, h, ih]

theorem nodup_dedupFirstAux {α : Type} [DecidableEq α] :
    ∀ (l seen : List α), (dedupFirstAux seen l).Nodup
  | [], _ => List.nodup_nil
  | x :: xs, seen => by
    rw [dedupFirstAux]
    split
    · exact nodup_dedupFirstAux xs seen
    · rename_i hx
      refine List.Nodup.cons ?_ (nodup_dedupFirstAux xs (x :: seen))
      intro hmem
      exact ((mem_dedupFirstAux _ _).mp hmem).2 (List.mem_cons_self x seen)

theorem nodup_dedupFirst {α : Type} [DecidableEq α] (l : List α) :
    (dedupFirst l).Nodup := nodup_dedupFirstAux l []

/-- Effect of fanning one commit out to its (duplicate-free) ticket list. -/
theorem findGroup_fanout (c : FlattenedCommit) :
    ∀ (ts : List (List Char)) (gs : List (List Char × List FlattenedCommit))
      (t : List Char), ts.Nodup →
      findGroup (ts.foldl (fun gs t' => addToGroup gs t' c) gs) t =
        findGroup gs t ++ (if t ∈ ts then [c] else [])
  | [], gs, t, _ => by simp
  | t0 :: ts', gs, t, hnd => by
    rw [List.foldl_cons,
      findGroup_fanout c ts' (addToGroup gs t0 c) t (List.Nodup.of_cons hnd),
      findGroup_addToGroup]
    by_cases h : t = t0
    · subst h
      have hni : t ∉ ts' := (List.nodup_cons.mp hnd).1
      simp [hni]
    · simp [h, List.mem_cons]

theorem commitTickets_nodup (c : FlattenedCommit) : (commitTickets c).Nodup := by
  unfold commitTickets
  exact nodup_dedupFirst _

/-- Count of a fixed commit `c` (whose ticket list is exactly `[T]`) inside
the group keyed `t`, after folding a commit list over `groupStep`. -/
theorem count_findGroup_fold (c : FlattenedCommit) (T : List Char)
    (hts : commitTickets c = [T]) :
    ∀ (cs : List FlattenedCommit)
      (gs : List (List Char × List FlattenedCommit))
      (orph : List FlattenedCommit) (t : List Char),
      List.count c (findGroup ((cs.foldl groupStep (gs, orph)).1) t) =
        List.count c (findGroup gs t) + (if t = T then cs.count c else 0)
  | [], gs, orph, t => by simp
  | d :: cs', gs, orph, t => by
    rw [List.foldl_cons]
    by_cases hd : commitTickets d = []
    · have hne : ¬ (c = d) := fun h => by rw [← h, hts] at hd; cases hd
      rw [show groupStep (gs, orph) d = (gs, orph ++ [d]) from by
        simp [groupStep, hd]]
      rw [count_findGroup_fold c T hts cs' gs (orph ++ [d]) t]
      simp [List.count_cons, hne]
    · rw [show groupStep (gs, orph) d =
        ((commitTickets d).foldl (fun gs t' => addToGroup gs t' d) gs, orph) from by
          simp [groupStep, hd]]
      rw [count_findGroup_fold c T hts cs' _ orph t,
        findGroup_fanout d (commitTickets d) gs t (commitTickets_nodup d),
        List.count_append]
      by_cases hdc : d = c
      · subst hdc
        rw [hts]
        by_cases ht : t = T
        · subst ht
          simp [List.count_cons]
          omega
        · simp [ht, fun hh : t ∈ [T] => ht (List.mem_singleton.mp hh)]
      · have hcd : ¬ (c = d) := fun h => hdc h.symm
        have hz : List.count c (if t ∈ commitTickets d then [d] else []) = 0 := by
          split <;> simp [List.count_cons, hcd]
        rw [hz]
        simp [List.count_cons, hcd]

/-- The untracked list collects, in input order, exactly the commits whose
ticket set is empty. -/
theorem orphans_fold :
    ∀ (cs : List FlattenedCommit)
      (gs : List (List Char × List FlattenedCommit))
      (orph : List FlattenedCommit),
      (cs.foldl groupStep (gs, orph)).2 =
        orph ++ cs.filter (fun d => commitTickets d = [])
  | [], gs, orph => by simp
  | d :: cs', gs, orph => by
    rw [List.foldl_cons]
    by_cases hd : commitTickets d = []
    · rw [show groupStep (gs, orph) d = (gs, orph ++ [d]) from by
        simp [groupStep, hd]]
      rw [orphans_fold cs' gs (orph ++ [d])]
      simp [hd, List.filter_cons]
    · rw [show groupStep (gs, orph) d =
        ((commitTickets d).foldl (fun gs t' => addToGroup gs t' d) gs, orph) from by
          simp [groupStep, hd]]
      rw [orphans_fold cs' _ orph]
      simp [hd, List.filter_cons]

/-- `c` appears only in groups keyed `T`. -/
def inOnly (c : FlattenedCommit) (T : List Char)
    (gs : List (List Char × List FlattenedCommit)) : Prop :=
  ∀ k l, (k, l) ∈ gs → c ∈ l → k = T

theorem mem_addToGroup :
    ∀ {gs : List (List Char × List FlattenedCommit)} {t : List Char}
      {d : FlattenedCommit} {k : List Char} {l : List FlattenedCommit},
      (k, l) ∈ addToGroup gs t d →
      (k, l) ∈ gs ∨ (k = t ∧ (l = [d] ∨ ∃ l0, (k, l0) ∈ gs ∧ l = l0 ++ [d])) := by
  intro gs
  induction gs with
  | nil =>
    intro t d k l h
    rw [addToGroup] at h
    have h' := List.mem_singleton.mp h
    have h1 := congrArg Prod.fst h'
    have h2 := congrArg Prod.snd h'
    simp only at h1 h2
    exact Or.inr ⟨h1, Or.inl h2⟩
  | cons p rest ih =>
    intro t d k l h
    obtain ⟨k0, l0⟩ := p
    by_cases hk : k0 = t
    · subst hk
      rw [addToGroup, if_pos rfl] at h
      rcases List.mem_cons.mp h with h | h
      · have h1 := congrArg Prod.fst h
        have h2 := congrArg Prod.snd h
        simp only at h1 h2
        subst h1
        exact Or.inr ⟨rfl, Or.inr ⟨l0, List.mem_cons_self _ _, h2⟩⟩
      · exact Or.inl (List.mem_cons_of_mem _ h)
    · rw [addToGroup, if_neg hk] at h
      rcases List.mem_cons.mp h with h | h
      · exact Or.inl (h ▸ List.mem_cons_self _ _)
      · rcases ih h with h | ⟨h1, h2⟩
        · exact Or.inl (List.mem_cons_of_mem _ h)
        · rcases h2 with h2 | ⟨l1, hl1, hl2⟩
          · exact Or.inr ⟨h1, Or.inl h2⟩
          · exact Or.inr ⟨h1, Or.inr ⟨l1, List.mem_cons_of_mem _ hl1, hl2⟩⟩

theorem inOnly_addToGroup {c : FlattenedCommit} {T t : List Char}
    {d : FlattenedCommit} {gs : List (List Char × List FlattenedCommit)}
    (hct : d = c → t = T) (h : inOnly c T gs) :
    inOnly c T (addToGroup gs t d) := by
  intro k l hm hcl
  rcases mem_addToGroup hm with hm | ⟨hk, hl⟩
  · exact h k l hm hcl
  · subst hk
    rcases hl with hl | ⟨l0, hl0, hl⟩
    · rw [hl] at hcl
      exact hct (List.mem_singleton.mp hcl).symm
    · rw [hl] at hcl
      rcases List.mem_append.mp hcl with hcl | hcl
      · exact h k l0 hl0 hcl
      · exact hct (List.mem_singleton.mp hcl).symm

theorem inOnly_fanout {c : FlattenedCommit} {T : List Char}
    {d : FlattenedCommit} :
    ∀ (ts : List (List Char)) (gs : List (List Char × List FlattenedCommit)),
      (∀ t ∈ ts, d = c → t = T) → inOnly c T gs →
      inOnly c T (ts.foldl (fun gs t' => addToGroup gs t' d) gs)
  | [], gs, _, h => h
  | t0 :: ts', gs, hts, h => by
    rw [List.foldl_cons]
    exact inOnly_fanout ts' _
      (fun t ht => hts t (List.mem_cons_of_mem _ ht))
      (inOnly_addToGroup (hts t0 (List.mem_cons_self _ _)) h)

theorem inOnly_fold (c : FlattenedCommit) (T : List Char)
    (hts : commitTickets c = [T]) :
    ∀ (cs : List FlattenedCommit)
      (gs : List (List Char × List FlattenedCommit))
      (orph : List FlattenedCommit),
      inOnly c T gs → inOnly c T ((cs.foldl groupStep (gs, orph)).1)
  | [], gs, orph, h => h
  | d :: cs', gs, orph, h => by
    rw [List.foldl_cons]
    by_cases hd : commitTickets d = []
    · rw [show groupStep (gs, orph) d = (gs, orph ++ [d]) from by
        simp [groupStep, hd]]
      exact inOnly_fold c T hts cs' gs (orph ++ [d]) h
    · rw [show groupStep (gs, orph) d =
        ((commitTickets d).foldl (fun gs t' => addToGroup gs t' d) gs, orph) from by
          simp [groupStep, hd]]
      refine inOnly_fold c T hts cs' _ orph ?_
      refine inOnly_fanout (commitTickets d) gs ?_ h
      intro t ht hdc
      subst hdc
      rw [hts] at ht
      exact List.mem_singleton.mp ht

theorem keys_addToGroup :
    ∀ (gs : List (List Char × List FlattenedCommit)) (t : List Char)
      (d : FlattenedCommit),
      (addToGroup gs t d).map Prod.fst =
        if t ∈ gs.map Prod.fst then gs.map Prod.fst
        else gs.map Prod.fst ++ [t]
  | [], t, d => by simp [addToGroup]
  | (k0, l0) :: rest, t, d => by
    by_cases hk : k0 = t
    · subst hk
      simp [addToGroup]
    · rw [addToGroup, if_neg hk]
      have hne : ¬ (t = k0) := fun h => hk h.symm
      simp only [List.map_cons, List.mem_cons, hne, false_or]
      rw [keys_addToGroup rest t d]
      split <;> simp

theorem keysNodup_addToGroup {gs : List (List Char × List FlattenedCommit)}
    {t : List Char} {d : FlattenedCommit}
    (h : (gs.map Prod.fst).Nodup) :
    ((addToGroup gs t d).map Prod.fst).Nodup := by
  rw [keys_addToGroup]
  split
  · exact h
  · rename_i hni
    simp [List.nodup_append, h, hni]

theorem keysNodup_fanout {d : FlattenedCommit} :
    ∀ (ts : List (List Char)) (gs : List (List Char × List FlattenedCommit)),
      (gs.map Prod.fst).Nodup →
      (((ts.foldl (fun gs t' => addToGroup gs t' d) gs)).map Prod.fst).Nodup
  | [], gs, h => h
  | t0 :: ts', gs, h => by
    rw [List.foldl_cons]
    exact keysNodup_fanout ts' _ (keysNodup_addToGroup h)

theorem keysNodup_fold :
    ∀ (cs : List FlattenedCommit)
      (gs : List (List Char × List FlattenedCommit))
      (orph : List FlattenedCommit),
      (gs.map Prod.fst).Nodup →
      (((cs.foldl groupStep (gs, orph)).1).map Prod.fst).Nodup
  | [], gs, orph, h => h
  | d :: cs', gs, orph, h => by
    rw [List.foldl_cons]
    by_cases hd : commitTickets d = []
    · rw [show groupStep (gs, orph) d = (gs, orph ++ [d]) from by
        simp [groupStep, hd]]
      exact keysNodup_fold cs' gs (orph ++ [d]) h
    · rw [show groupStep (gs, orph) d =
        ((commitTickets d).foldl (fun gs t' => addToGroup gs t' d) gs, orph) from by
          simp [groupStep, hd]]
      exact keysNodup_fold cs' _ orph (keysNodup_fanout (commitTickets d) gs h)

theorem findGroup_mem :
    ∀ (gs : List (List Char × List FlattenedCommit)) (t : List Char),
      findGroup gs t ≠ [] → (t, findGroup gs t) ∈ gs
  | [], t, h => absurd rfl h
  | (k0, l0) :: rest, t, h => by
    by_cases hk : k0 = t
    · subst hk
      rw [findGroup, if_pos rfl] at h ⊢
      exact List.mem_cons_self _ _
    · rw [findGroup, if_neg hk] at h ⊢
      exact List.mem_cons_of_mem _ (findGroup_mem rest t h)

theorem eq_findGroup_of_mem_nodup :
    ∀ {gs : List (List Char × List FlattenedCommit)} {t : List Char}
      {l : List FlattenedCommit},
      (gs.map Prod.fst).Nodup → (t, l) ∈ gs → l = findGroup gs t := by
  intro gs
  induction gs with
  | nil => intro t l _ h; cases h
  | cons p rest ih =>
    intro t l hnd h
    obtain ⟨k0, l0⟩ := p
    rcases List.mem_cons.mp h with h | h
    · have h1 := congrArg Prod.fst h
      have h2 := congrArg Prod.snd h
      simp only at h1 h2
      subst h1
      rw [findGroup, if_pos rfl]
      exact h2
    · have hk : ¬ (k0 = t) := by
        intro hh
        subst hh
        have : k0 ∈ rest.map Prod.fst :=
          List.mem_map.mpr ⟨(k0, l), h, rfl⟩
        exact (List.nodup_cons.mp (by simpa using hnd)).1 this
      rw [findGroup, if_neg hk]
      exact ih (List.Nodup.of_cons (by simpa using hnd)) h

/-- C2: a commit whose branch is `feature/ABC-12-fix` and whose message's
tickets are exactly "ABC-12" (with no pull request), occurring once in the
input list, is placed by the grouping step of `buildPromptFromCommits` in
exactly one ticket group — the one keyed "ABC-12" — appears exactly once in
that group's commit list (the per-commit ticket set is deduplicated before
fan-out), and is not among the untracked commits. -/
theorem c2_roundtrip_grouping (cs : List FlattenedCommit) (c : FlattenedCommit)
    (hcount : cs.count c = 1)
    (hbr : c.branchName = some ("feature/ABC-12-fix".data))
    (hpr : c.pullRequest = none)
    (hmsg : extractJiraTickets c.message = ["ABC-12".data]) :
    ∃ l, ("ABC-12".data, l) ∈ (groupCommitsByTicket cs).1 ∧
      l.count c = 1 ∧
      (∀ k l', (k, l') ∈ (groupCommitsByTicket cs).1 → c ∈ l' →
        k = "ABC-12".data ∧ l' = l) ∧
      c ∉ (groupCommitsByTicket cs).2 := by
  have hts : commitTickets c = ["ABC-12".data] := by
    unfold commitTickets
    rw [hbr, hpr, hmsg]
    decide
  have hcnt := count_findGroup_fold c ("ABC-12".data) hts cs [] [] ("ABC-12".data)
  rw [if_pos rfl, hcount] at hcnt
  simp only [findGroup] at hcnt
  set gs' := (groupCommitsByTicket cs).1 with hgs
  have hcnt' : (findGroup gs' ("ABC-12".data)).count c = 1 := by
    rw [hgs, groupCommitsByTicket]
    simpa using hcnt
  have hne : findGroup gs' ("ABC-12".data) ≠ [] := by
    intro h
    rw [h] at hcnt'
    simp at hcnt'
  have hmem : ("ABC-12".data, findGroup gs' ("ABC-12".data)) ∈ gs' :=
    findGroup_mem gs' _ hne
  have hnodup : (gs'.map Prod.fst).Nodup := by
    rw [hgs, groupCommitsByTicket]
    exact keysNodup_fold cs [] [] List.nodup_nil
  have honly : inOnly c ("ABC-12".data) gs' := by
    rw [hgs, groupCommitsByTicket]
    exact inOnly_fold c _ hts cs [] [] (fun k l h _ => absurd h (by simp))
  refine ⟨findGroup gs' ("ABC-12".data), hmem, hcnt', ?_, ?_⟩
  · intro k l' hkl hcl
    have hk : k = "ABC-12".data := honly k l' hkl hcl
    subst hk
    exact ⟨rfl, eq_findGroup_of_mem_nodup hnodup hkl⟩
  · intro hco
    have := orphans_fold cs [] []
    rw [show (groupCommitsByTicket cs).2 = (cs.foldl groupStep ([], [])).2 from rfl,
      this] at hco
    simp only [List.nil_append] at hco
    have := List.of_mem_filter hco
    rw [hts] at this
    simp at this

/-- C2 (witness): the single-commit scenario from the specification. -/
theorem c2_witness :
    ∃ l, ("ABC-12".data, l) ∈
        (groupCommitsByTicket
          [{ sha := "abc".data, message := "ABC-12 fix the bug".data,
             author := [], authorEmail := [], date := [], url := [],
             repoFullName := [], additions := 1, deletions := 1,
             filesChanged := 1,
             branchName := some ("feature/ABC-12-fix".data) }]).1 ∧
      l.count
        { sha := "abc".data, message := "ABC-12 fix the bug".data,
          author := [], authorEmail := [], date := [], url := [],
          repoFullName := [], additions := 1, deletions := 1,
          filesChanged := 1,
          branchName := some ("feature/ABC-12-fix".data) } = 1 ∧
      (∀ k l', (k, l') ∈
          (groupCommitsByTicket
            [{ sha := "abc".data, message := "ABC-12 fix the bug".data,
               author := [], authorEmail := [], date := [], url := [],
               repoFullName := [], additions := 1, deletions := 1,
               filesChanged := 1,
               branchName := some ("feature/ABC-12-fix".data) }]).1 →
        { sha := "abc".data, message := "ABC-12 fix the bug".data,
          author := [], authorEmail := [], date := [], url := [],
          repoFullName := [], additions := 1, deletions := 1,
          filesChanged := 1,
          branchName := some ("feature/ABC-12-fix".data) } ∈ l' →
        k = "ABC-12".data ∧ l' = l) ∧
      { sha := "abc".data, message := "ABC-12 fix the bug".data,
        author := [], authorEmail := [], date := [], url := [],
        repoFullName := [], additions := 1, deletions := 1,
        filesChanged := 1,
        branchName := some ("feature/ABC-12-fix".data) } ∉
        (groupCommitsByTicket
          [{ sha := "abc".data, message := "ABC-12 fix the bug".data,
             author := [], authorEmail := [], date := [], url := [],
             repoFullName := [], additions := 1, deletions := 1,
             filesChanged := 1,
             branchName := some ("feature/ABC-12-fix".data) }]).2 :=
  c2_roundtrip_grouping _ _ (by decide) rfl rfl (by decide)

/-! ## JavaScript runtime values and `JSON.parse`

The adapters manipulate untyped JavaScript values: the result of
`JSON.parse`, the `x || dflt` coercion and `Array.isArray`.  `JVal` models
such values; `undefined` (the result of a missing property access) is
identified with `null` — the two behave identically in every coercion the
source performs.  JSON numbers are modelled exactly as rationals. -/

inductive JVal where
  | null
  | bool (b : Bool)
  | num (q : ℚ)
  | str (s : List Char)
  | arr (xs : List JVal)
  | obj (fields : List (List Char × JVal))

/-- JSON whitespace (also used for the `\s` class and `trim()`). -/
def isJsonWs (c : Char) : Bool := c = ' ' || c = '\t' || c = '\n' || c = '\r'

def skipWs (s : List Char) : List Char := s.dropWhile isJsonWs

def hexVal (c : Char) : Option Nat :=
  if isDigit09 c then some (c.toNat - 48)
  else if 'a' ≤ c && c ≤ 'f' then some (c.toNat - 87)
  else if 'A' ≤ c && c ≤ 'F' then some (c.toNat - 55)
  else none

/-- JSON string body after the opening quote; returns the decoded
characters and the text after the closing quote.  Every step consumes at
least one input character, so `fuel = input length` suffices. -/
def parseStringBody : Nat → List Char → Option (List Char × List Char)
  | 0, _ => none
  | Nat.succ fuel, s =>
    match s with
    | [] => none
    | '"' :: r => some ([], r)
    | '\\' :: e :: r =>
      match e with
      | '"' => (parseStringBody fuel r).map (fun p => ('"' :: p.1, p.2))
      | '\\' => (parseStringBody fuel r).map (fun p => ('\\' :: p.1, p.2))
      | '/' => (parseStringBody fuel r).map (fun p => ('/' :: p.1, p.2))
      | 'b' => (parseStringBody fuel r).map (fun p => (Char.ofNat 8 :: p.1, p.2))
      | 'f' => (parseStringBody fuel r).map (fun p => (Char.ofNat 12 :: p.1, p.2))
      | 'n' => (parseStringBody fuel r).map (fun p => ('\n' :: p.1, p.2))
      | 'r' => (parseStringBody fuel r).map (fun p => (Char.ofNat 13 :: p.1, p.2))
      | 't' => (parseStringBody fuel r).map (fun p => ('\t' :: p.1, p.2))
      | 'u' =>
        match r with
        | h1 :: h2 :: h3 :: h4 :: r' =>
          match hexVal h1, hexVal h2, hexVal h3, hexVal h4 with
          | some a, some b, some c, some d =>
            (parseStringBody fuel r').map
              (fun p => (Char.ofNat (((a * 16 + b) * 16 + c) * 16 + d) :: p.1, p.2))
          | _, _, _, _ => none
        | _ => none
      | _ => none
    | c :: r =>
      if c.toNat < 32 then none
      else (parseStringBody fuel r).map (fun p => (c :: p.1, p.2))

def digitsToNat (l : List Char) : Nat :=
  l.foldl (fun a c => a * 10 + (c.toNat - 48)) 0

/-- JSON number grammar: `-? (0 | [1-9][0-9]*) (\.[0-9]+)? ([eE][+-]?[0-9]+)?`,
with the exact rational value. -/
def parseNumber (s : List Char) : Option (ℚ × List Char) :=
  let (sgn, s1) : Int × List Char :=
    match s with
    | '-' :: r => (-1, r)
    | _ => (1, s)
  let intPart : Option (List Char × List Char) :=
    match s1 with
    | '0' :: r => some (['0'], r)
    | c :: r => if isDigit09 c && c ≠ '0'
        then some (c :: r.takeWhile isDigit09, r.dropWhile isDigit09)
        else none
    | [] => none
  match intPart with
  | none => none
  | some (ints, s2) =>
    let fracPart : Option (List Char × List Char) :=
      match s2 with
      | '.' :: r =>
        let ds := r.takeWhile isDigit09
        if ds = [] then none else some (ds, r.dropWhile isDigit09)
      | _ => some ([], s2)
    match fracPart with
    | none => none
    | some (fracs, s3) =>
      let expPart : Option (Int × List Char) :=
        match s3 with
        | 'e' :: r | 'E' :: r =>
          let (esgn, r1) : Int × List Char :=
            match r with
            | '+' :: r' => (1, r')
            | '-' :: r' => (-1, r')
            | _ => (1, r)
          let ds := r1.takeWhile isDigit09
          if ds = [] then none
          else some (esgn * (digitsToNat ds : Int), r1.dropWhile isDigit09)
        | _ => some (0, s3)
      match expPart with
      | none => none
      | some (ex, s4) =>
        let mant : Int := sgn * (digitsToNat (ints ++ fracs) : Int)
        some ((mant : ℚ) / ((10 : ℚ) ^ fracs.length) * ((10 : ℚ) ^ ex), s4)

mutual

def parseVal : Nat → List Char → Option (JVal × List Char)
  | 0, _ => none
  | Nat.succ fuel, s =>
    match skipWs s with
    | 'n' :: 'u' :: 'l' :: 'l' :: r => some (.null, r)
    | 't' :: 'r' :: 'u' :: 'e' :: r => some (.bool true, r)
    | 'f' :: 'a' :: 'l' :: 's' :: 'e' :: r => some (.bool false, r)
    | '"' :: r =>
      (parseStringBody r.length r).map (fun p => (.str p.1, p.2))
    | '[' :: r =>
      match skipWs r with
      | ']' :: r2 => some (.arr [], r2)
      | _ => parseArrItems fuel r []
    | '{' :: r =>
      match skipWs r with
      | '}' :: r2 => some (.obj [], r2)
      | _ => parseObjItems fuel r []
    | s' => (parseNumber s').map (fun p => (.num p.1, p.2))

def parseArrItems : Nat → List Char → List JVal → Option (JVal × List Char)
  | 0, _, _ => none
  | Nat.succ fuel, s, acc =>
    match parseVal fuel s with
    | none => none
    | some (v, r) =>
      match skipWs r with
      | ',' :: r2 => parseArrItems fuel r2 (acc ++ [v])
      | ']' :: r2 => some (.arr (acc ++ [v]), r2)
      | _ => none

def parseObjItems : Nat → List Char → List (List Char × JVal) →
    Option (JVal × List Char)
  | 0, _, _ => none
  | Nat.succ fuel, s, acc =>
    match skipWs s with
    | '"' :: r =>
      match parseStringBody r.length r with
      | none => none
      | some (key, r1) =>
        match skipWs r1 with
        | ':' :: r2 =>
          match parseVal fuel r2 with
          | none => none
          | some (v, r3) =>
            match skipWs r3 with
            | ',' :: r4 => parseObjItems fuel r4 (acc ++ [(key, v)])
            | '}' :: r4 => some (.obj (acc ++ [(key, v)]), r4)
            | _ => none
        | _ => none
    | _ => none

end

/-- `JSON.parse`: parse one value, allowing surrounding whitespace;
anything left over is a syntax error. -/
def jsonParse (s : List Char) : Option JVal :=
  match parseVal (2 * s.length + 2) s with
  | some (v, r) => if skipWs r = [] then some v else none
  | none => none

/-- JavaScript truthiness of a `JVal` (arrays and objects are truthy). -/
def truthy : JVal → Bool
  | .null => false
  | .bool b => b
  | .num q => decide (q ≠ 0)
  | .str s => decide (s ≠ [])
  | .arr _ => true
  | .obj _ => true

/-- `x || dflt`. -/
def jsOr (v dflt : JVal) : JVal := if truthy v then v else dflt

/-- Key lookup in a parsed object; a later duplicate key shadows an earlier
one (as `JSON.parse` keeps the last occurrence). -/
def objGet (fields : List (List Char × JVal)) (key : List Char) : Option JVal :=
  match fields with
  | [] => none
  | (k, v) :: rest =>
    match objGet rest key with
    | some v' => some v'
    | none => if k = key then some v else none

/-- Property access `v[key]`: a missing key, or access on a primitive,
yields `undefined` (modelled as `.null`).  Access on `null` throws a
`TypeError`; the callers below route that case into their `catch` branch
before using this function. -/
def getField (v : JVal) (key : List Char) : JVal :=
  match v with
  | .obj fs =>
    match objGet fs key with
    | some w => w
    | none => .null
  | _ => .null

def isArr : JVal → Bool
  | .arr _ => true
  | _ => false

/-- The runtime shape of the object literal each adapter returns. -/
structure JsSummary where
  summary : JVal
  bulletPoints : JVal
  highlights : JVal
  tickets : JVal
  untracked : JVal

/-- The object built in the `catch` branches of `callOpenAI` and
`callAnthropic` (and in `callAnthropic`'s no-match branch): the raw content
as summary, all structured fields empty. -/
def rawFallback (content : List Char) : JsSummary :=
  ⟨.str content, .arr [], .arr [], .arr [], .arr []⟩

/-- The five `parsed.x || dflt` coercions shared by `callOpenAI`,
`callAnthropic` and `callGoogle`'s `finalParsed` path, parameterized by the
summary default. -/
def orCoerce (parsed : JVal) (summaryDflt : List Char) : JsSummary :=
  ⟨jsOr (getField parsed ("summary".data)) (.str summaryDflt),
   jsOr (getField parsed ("bulletPoints".data)) (.arr []),
   jsOr (getField parsed ("highlights".data)) (.arr []),
   jsOr (getField parsed ("tickets".data)) (.arr []),
   jsOr (getField parsed ("untracked".data)) (.arr [])⟩

/-- `callOpenAI`'s response normalization: `JSON.parse(content)` inside
`try`, field-by-field `||` coercions; any exception (parse failure, or the
`TypeError` from `parsed.summary` when `parsed` is `null`) falls into the
`catch` that returns the raw content. -/
def openAiNormalize (content : List Char) : JsSummary :=
  match jsonParse content with
  | none => rawFallback content
  | some parsed =>
    match parsed with
    | .null => rawFallback content
    | _ => orCoerce parsed []

/-- The regex `/\{[\s\S]*\}/`: from the first `{` that has some `}` after
it, greedily to the last `}` of the text. -/
def jsonSpan (s : List Char) : Option (List Char) :=
  match s.dropWhile (fun c => c ≠ '{') with
  | '{' :: rest =>
    if '}' ∈ rest
    then some ('{' :: (rest.reverse.dropWhile (fun c => c ≠ '}')).reverse)
    else none
  | _ => none

/-- `callAnthropic`'s response normalization: extract a `{...}` span and
parse it; on no span, or on any exception, return the raw content. -/
def anthropicNormalize (content : List Char) : JsSummary :=
  match jsonSpan content with
  | some span =>
    match jsonParse span with
    | none => rawFallback content
    | some parsed =>
      match parsed with
      | .null => rawFallback content
      | _ => orCoerce parsed []
  | none => rawFallback content

def asciiLowerChar (c : Char) : Char :=
  if isUpperAZ c then Char.ofNat (c.toNat + 32) else c

def asciiLower (s : List Char) : List Char := s.map asciiLowerChar

def startsWith (pre s : List Char) : Bool := s.take pre.length = pre

/-- The three fence-stripping `replace` calls plus `trim()` of `callGoogle`
(the `\s` class is modelled by the JSON whitespace set).  The `if
(jsonContent)` guard skips everything for the empty string. -/
def stripFences (content : List Char) : List Char :=
  if content = [] then content
  else
    let s1 :=
      if startsWith ("```json".data) (asciiLower content)
      then (content.drop 7).dropWhile isJsonWs
      else content
    let s2 :=
      if startsWith ("```".data) s1
      then (s1.drop 3).dropWhile isJsonWs
      else s1
    let s3 :=
      if startsWith ("```".data) s2.reverse
      then ((s2.reverse.drop 3).dropWhile isJsonWs).reverse
      else s2
    (((s3.dropWhile isJsonWs).reverse.dropWhile isJsonWs)).reverse

/-- The object built in `callGoogle`'s `catch`: the first 500 characters of
the raw content (or a placeholder when the content is empty). -/
def google500 (content : List Char) : JsSummary :=
  ⟨(if content = [] then .str ("Unable to generate summary".data)
    else .str (content.take 500)),
   .arr [], .arr [], .arr [], .arr []⟩

/-- `callGoogle`'s response normalization: strip markdown fences, prefer a
`{...}` span (with `Array.isArray` coercions), fall back to parsing the
whole cleaned string (with `||` coercions); any exception yields the
500-character truncation of the raw content. -/
def googleNormalize (content : List Char) : JsSummary :=
  let jsonContent := stripFences content
  match jsonSpan jsonContent with
  | some span =>
    match jsonParse span with
    | none => google500 content
    | some parsed =>
      match parsed with
      | .null => google500 content
      | _ =>
        ⟨jsOr (getField parsed ("summary".data))
            (.str ("Summary generated successfully.".data)),
         (if isArr (getField parsed ("bulletPoints".data))
          then getField parsed ("bulletPoints".data) else .arr []),
         (if isArr (getField parsed ("highlights".data))
          then getField parsed ("highlights".data) else .arr []),
         (if isArr (getField parsed ("tickets".data))
          then getField parsed ("tickets".data) else .arr []),
         (if isArr (getField parsed ("untracked".data))
          then getField parsed ("untracked".data) else .arr [])⟩
  | none =>
    match jsonParse jsonContent with
    | none => google500 content
    | some parsed =>
      match parsed with
      | .null => google500 content
      | _ => orCoerce parsed []

/-! ## Provider adapters (HTTP layer) and `generateSummary` (lib/utils.ts)

The single HTTP round trip of each adapter is modelled by an explicit
response value: `ok` is `response.ok`, `errMsg` is the error body's
`error.error?.message`, and `content` is the generated text extracted from
the vendor payload.  `generateSummary` receives the network as an oracle
`respond : provider → prompt → response` and reports the number of HTTP
requests it issued, so "no network call" is a provable statement. -/

structure HttpResponse where
  ok : Bool
  errMsg : Option (List Char)
  content : List Char

def vendorError (errMsg : Option (List Char)) (dflt : List Char) : List Char :=
  match errMsg with
  | some m => if m = [] then dflt else m
  | none => dflt

def callOpenAI (resp : HttpResponse) : Except (List Char) JsSummary :=
  if resp.ok then .ok (openAiNormalize resp.content)
  else .error (vendorError resp.errMsg ("OpenAI API request failed".data))

def callAnthropic (resp : HttpResponse) : Except (List Char) JsSummary :=
  if resp.ok then .ok (anthropicNormalize resp.content)
  else .error (vendorError resp.errMsg ("Anthropic API request failed".data))

def callGoogle (resp : HttpResponse) : Except (List Char) JsSummary :=
  if resp.ok then .ok (googleNormalize resp.content)
  else .error (vendorError resp.errMsg ("Google Gemini API request failed".data))

/-- `LLMProvider` (stores/settings-store.ts): the three supported vendors.
The `switch` default branch of `generateSummary` is unreachable for this
closed enumeration. -/
inductive LLMProvider
  | openai
  | anthropic
  | google
deriving DecidableEq

def providerName : LLMProvider → List Char
  | .openai => "openai".data
  | .anthropic => "anthropic".data
  | .google => "google".data

/-- `TicketGroup` (lib/github.ts): the fields read by
`buildPromptFromTicketGroups`. -/
structure TicketGroup where
  ticketId : List Char
  ticketUrl : List Char
  commits : List FlattenedCommit
  pullRequests : List PullRequest
  filesChanged : List (List Char)
  totalAdditions : Nat
  totalDeletions : Nat
  diffs : List CommitDiff
deriving DecidableEq

/-- `message.split("\n")[0]`. -/
def firstLine (s : List Char) : List Char := (splitNl s).headD []

/-- The `formatCommit` helper of `buildPromptFromCommits`. -/
def formatCommit (c : FlattenedCommit) : List Char :=
  ("  - ".data ++ firstLine c.message ++ " (".data ++ natChars c.filesChanged ++
    " files, +".data ++ natChars c.additions ++ "/-".data ++
    natChars c.deletions ++ ")".data) ++
  (match c.pullRequest with
   | some pr => "\n    PR #".data ++ natChars pr.number ++ ": ".data ++ pr.title
   | none => []) ++
  (match c.diff with
   | some d => formatDiffForPrompt d 3
   | none => [])

/-- One entry of the JSON-schema instruction of `buildPromptFromCommits`,
embedding a discovered ticket id. -/
def promptSchemaItem (t : List Char) : List Char :=
  "\x7b\n      \"ticketId\": \"".data ++ t ++
  ("\",\n      \"summary\": \"What was accomplished for this ticket (based on code analysis)\",\n" ++
   "      \"bulletPoints\": [\"Specific implementation 1\", \"Specific implementation 2\"],\n" ++
   "      \"codeInsights\": [\"Technical insight about the changes\"]\n    \x7d").data

/-- `buildPromptFromCommits` (lib/utils.ts): group the commits by ticket,
render each group and the untracked bucket, and wrap everything in the
instruction template whose JSON schema names the discovered tickets. -/
def buildPromptFromCommits (commits : List FlattenedCommit) : List Char :=
  let grouped := groupCommitsByTicket commits
  let ticketCommits := grouped.1
  let untrackedCommits := grouped.2
  let commitDetails :=
    (ticketCommits.map (fun g =>
      "\n## Ticket: ".data ++ g.1 ++ "\n".data ++
      (g.2.map (fun c => formatCommit c ++ "\n".data)).flatten)).flatten ++
    (if untrackedCommits = [] then []
     else "\n## Untracked Work (no Jira ticket)\n".data ++
       (untrackedCommits.map (fun c => formatCommit c ++ "\n".data)).flatten)
  let ticketList := ticketCommits.map Prod.fst
  ("You are a helpful assistant that summarizes daily development work for stand-up meetings.\n" ++
   "Your summaries should be ORGANIZED BY JIRA TICKET and provide MEANINGFUL CODE-LEVEL INSIGHTS.\n\n" ++
   "Given the following commits from yesterday, create a Jira-ticket-focused summary suitable for a daily stand-up meeting.\n\n" ++
   "Commits grouped by ticket:\n").data ++
  commitDetails ++
  ("\n\nIMPORTANT: \n" ++
   "- Structure your response around Jira tickets\n" ++
   "- Analyze the code diffs to understand what was actually implemented\n" ++
   "- Don't just repeat commit messages - describe the actual changes\n" ++
   "- Each ticket should have its own summary describing what was accomplished\n\n" ++
   "Please provide your response in the following JSON format:\n" ++
   "\x7b\n  \"summary\": \"A 1-2 sentence high-level overview mentioning the main tickets worked on\",\n  \"tickets\": [\n    ").data ++
  List.intercalate (",\n    ".data) (ticketList.map promptSchemaItem) ++
  ("\n  ],\n" ++
   "  \"untracked\": [\"Any work not associated with a ticket\"],\n" ++
   "  \"bulletPoints\": [\"Legacy format - overall bullet points\"],\n" ++
   "  \"highlights\": [\"Key achievement or notable item - mention ticket IDs\"]\n\x7d\n\n" ++
   "Guidelines:\n" ++
   "- Lead with ticket IDs in your summary\n" ++
   "- Each ticket summary should explain the business value or feature impact\n" ++
   "- Keep bullet points concise and action-oriented\n" ++
   "- Use past tense\n" ++
   "- Highlight which tickets are complete vs in-progress if discernible").data

/-- One entry of the JSON-schema instruction of
`buildPromptFromTicketGroups`. -/
def groupSchemaItem (t : List Char) : List Char :=
  "\x7b\n      \"ticketId\": \"".data ++ t ++
  ("\",\n      \"summary\": \"Detailed description of what was accomplished (based on code analysis)\",\n" ++
   "      \"bulletPoints\": [\"Specific implementation detail 1\", \"Specific implementation detail 2\"],\n" ++
   "      \"codeInsights\": [\"Technical insight about the code changes\"],\n" ++
   "      \"filesChanged\": [\"key-file-1.ts\", \"key-file-2.tsx\"]\n    \x7d").data

/-- The per-group rendering of `buildPromptFromTicketGroups`. -/
def renderTicketGroup (g : TicketGroup) : List Char :=
  "\n## Ticket: ".data ++ g.ticketId ++ "\n".data ++
  "URL: ".data ++ g.ticketUrl ++ "\n".data ++
  "Total changes: +".data ++ natChars g.totalAdditions ++ "/-".data ++
    natChars g.totalDeletions ++ " across ".data ++
    natChars g.filesChanged.length ++ " files\n".data ++
  (if g.pullRequests = [] then []
   else "\nPull Requests:\n".data ++
     (g.pullRequests.map (fun pr =>
       "  - PR #".data ++ natChars pr.number ++ ": ".data ++ pr.title ++
       " [".data ++ (if pr.merged then "MERGED".data else asciiUpper pr.state) ++
       "]\n".data ++
       "    Branch: ".data ++ pr.headBranch ++ " → ".data ++ pr.baseBranch ++
       "\n".data)).flatten) ++
  "\nCommits:\n".data ++
  (g.commits.map (fun c =>
    "  - [".data ++ c.sha.take 7 ++ "] ".data ++ firstLine c.message ++
    " (+".data ++ natChars c.additions ++ "/-".data ++ natChars c.deletions ++
    ")\n".data)).flatten ++
  (if g.diffs = [] then []
   else "\nCode Changes:\n".data ++
     ((g.diffs.take 3).map (fun d => formatDiffForPrompt d 3)).flatten) ++
  (if g.filesChanged = [] then []
   else "\nFiles modified: ".data ++
     List.intercalate (", ".data) (g.filesChanged.take 10) ++
     (if g.filesChanged.length > 10
      then " ... and ".data ++ natChars (g.filesChanged.length - 10) ++
        " more".data
      else []) ++
     "\n".data)

/-- `buildPromptFromTicketGroups` (lib/utils.ts). -/
def buildPromptFromTicketGroups (ticketGroups : List TicketGroup)
    (allCommits : List FlattenedCommit) : List Char :=
  let ticketCommitShas := ticketGroups.flatMap (fun g => g.commits.map (·.sha))
  let orphanCommits := allCommits.filter (fun c => c.sha ∉ ticketCommitShas)
  let commitDetails :=
    (ticketGroups.map renderTicketGroup).flatten ++
    (if orphanCommits = [] then []
     else "\n## Other Work (no Jira ticket identified)\n".data ++
       (orphanCommits.map (fun c =>
         "  - [".data ++ c.sha.take 7 ++ "] ".data ++ firstLine c.message ++
         " (+".data ++ natChars c.additions ++ "/-".data ++
         natChars c.deletions ++ ")\n".data ++
         (match c.diff with
          | some d => formatDiffForPrompt d 2
          | none => []))).flatten)
  let ticketList := ticketGroups.map (·.ticketId)
  ("You are a helpful assistant that summarizes daily development work for stand-up meetings.\n" ++
   "Your summaries should be ORGANIZED BY JIRA TICKET and provide MEANINGFUL CODE-LEVEL INSIGHTS, not just commit titles.\n\n" ++
   "Given the following development activity from yesterday, create a comprehensive Jira-ticket-focused summary.\n\n").data ++
  commitDetails ++
  ("\n\nIMPORTANT GUIDELINES:\n" ++
   "1. Structure your response around Jira tickets - each ticket should have its own detailed summary\n" ++
   "2. Analyze the actual CODE CHANGES shown in the diffs to understand what was implemented\n" ++
   "3. Don't just repeat commit messages - synthesize what was actually built or fixed\n" ++
   "4. Identify patterns: new features, bug fixes, refactoring, API changes, UI updates\n" ++
   "5. For each ticket, describe the business value or technical improvement achieved\n" ++
   "6. Highlight significant architectural decisions or complex implementations\n\n" ++
   "Please provide your response in the following JSON format:\n" ++
   "\x7b\n  \"summary\": \"A 1-2 sentence high-level overview mentioning the main tickets and key accomplishments\",\n  \"tickets\": [\n    ").data ++
  List.intercalate (",\n    ".data) (ticketList.map groupSchemaItem) ++
  ("\n  ],\n" ++
   "  \"untracked\": [\"Description of work not associated with a ticket, with technical details\"],\n" ++
   "  \"bulletPoints\": [\"Overall key points for quick stand-up delivery\"],\n" ++
   "  \"highlights\": [\"Major achievement or notable technical accomplishment\"]\n\x7d\n\n" ++
   "Focus on:\n" ++
   "- What new functionality was added?\n" ++
   "- What bugs were fixed and how?\n" ++
   "- What was refactored or improved?\n" ++
   "- What APIs or interfaces were modified?\n" ++
   "- What UI/UX changes were made?").data

/-- `buildPromptWithDiffs`: pre-grouped data when present and nonempty,
otherwise group internally. -/
def buildPromptWithDiffs (commits : List FlattenedCommit)
    (ticketGroups : Option (List TicketGroup)) : List Char :=
  match ticketGroups with
  | some gs =>
    if gs ≠ [] then buildPromptFromTicketGroups gs commits
    else buildPromptFromCommits commits
  | none => buildPromptFromCommits commits

/-- `generateSummary` (lib/utils.ts): credential check first, then the
empty-input short-circuit, then one HTTP call through the selected
adapter.  The second component counts the HTTP requests issued. -/
def generateSummary (commits : List FlattenedCommit) (provider : LLMProvider)
    (apiKey : List Char) (ticketGroups : Option (List TicketGroup))
    (respond : LLMProvider → List Char → HttpResponse) :
    Except (List Char) JsSummary × Nat :=
  if apiKey = [] then
    (.error ("No API key configured for ".data ++ providerName provider ++
      ". Please add your API key in settings.".data), 0)
  else if commits = [] then
    (.ok ⟨.str ("No commits found for the previous working day.".data),
      .arr [], .arr [], .arr [], .arr []⟩, 0)
  else
    let prompt := buildPromptWithDiffs commits ticketGroups
    match provider with
    | .openai => (callOpenAI (respond .openai prompt), 1)
    | .anthropic => (callAnthropic (respond .anthropic prompt), 1)
    | .google => (callGoogle (respond .google prompt), 1)

/-! ## Claims C4, C10, C5, C6 -/

/-- C4: for every provider selector, `generateSummary` on an empty commit
list (with a configured key) returns the canned no-activity result —
summary "No commits found for the previous working day." and empty
bulletPoints, highlights, tickets and untracked — and issues no HTTP
request. -/
theorem c4_empty_commits_short_circuit (provider : LLMProvider)
    (apiKey : List Char) (tg : Option (List TicketGroup))
    (respond : LLMProvider → List Char → HttpResponse)
    (h : apiKey ≠ []) :
    generateSummary [] provider apiKey tg respond =
      (.ok ⟨.str ("No commits found for the previous working day.".data),
        .arr [], .arr [], .arr [], .arr []⟩, 0) := by
  rw [generateSummary, if_neg h, if_pos rfl]

/-- C4 (witness): the short-circuit at a concrete provider and key. -/
theorem c4_witness :
    generateSummary [] LLMProvider.openai ("key".data) none
      (fun _ _ => ⟨true, none, []⟩) =
      (.ok ⟨.str ("No commits found for the previous working day.".data),
        .arr [], .arr [], .arr [], .arr []⟩, 0) :=
  c4_empty_commits_short_circuit LLMProvider.openai ("key".data) none
    (fun _ _ => ⟨true, none, []⟩) (by decide)

/-- C10: `generateSummary` checks the credential before the empty-input
short-circuit: for every provider and every commit list — including the
empty one — an empty `apiKey` raises the "No API key configured" error with
no HTTP request, so the canned no-activity result is only produced under a
non-empty key. -/
theorem c10_key_checked_before_empty_input (commits : List FlattenedCommit)
    (provider : LLMProvider) (tg : Option (List TicketGroup))
    (respond : LLMProvider → List Char → HttpResponse) :
    generateSummary commits provider [] tg respond =
      (.error ("No API key configured for ".data ++ providerName provider ++
        ". Please add your API key in settings.".data), 0) := by
  rw [generateSummary, if_pos rfl]

set_option maxRecDepth 8000 in
/-- C5 (counterexample): a 501-character unparseable OpenAI response is
returned in full as the summary, not truncated to its first 500 characters
as the claim states for every adapter. -/
theorem c5_counterexample :
    jsonParse (List.replicate 501 'a') = none ∧
    openAiNormalize (List.replicate 501 'a') =
      ⟨.str (List.replicate 501 'a'), .arr [], .arr [], .arr [], .arr []⟩ ∧
    JVal.str (List.replicate 501 'a') ≠
      JVal.str ((List.replicate 501 'a').take 500) := by
  refine ⟨rfl, rfl, fun h => ?_⟩
  have hl := congrArg List.length (JVal.str.inj h)
  simp [List.length_take] at hl

/-- C5 (amended): no adapter throws on a 2xx response whose text cannot be
parsed: all structured fields come back empty, and the summary is the raw
text — truncated to its first 500 characters by the Google adapter only,
returned in full by the OpenAI and Anthropic adapters. -/
theorem c5_parse_failure_degrades :
    (∀ content, jsonParse content = none →
      openAiNormalize content =
        ⟨.str content, .arr [], .arr [], .arr [], .arr []⟩) ∧
    (∀ content,
      (∀ span, jsonSpan content = some span → jsonParse span = none) →
      anthropicNormalize content =
        ⟨.str content, .arr [], .arr [], .arr [], .arr []⟩) ∧
    (∀ content, content ≠ [] →
      (∀ span, jsonSpan (stripFences content) = some span →
        jsonParse span = none) →
      (jsonSpan (stripFences content) = none →
        jsonParse (stripFences content) = none) →
      googleNormalize content =
        ⟨.str (content.take 500), .arr [], .arr [], .arr [], .arr []⟩) := by
  refine ⟨?_, ?_, ?_⟩
  · intro content h
    simp only [openAiNormalize, h, rawFallback]
  · intro content h
    cases hs : jsonSpan content with
    | none => simp only [anthropicNormalize, hs, rawFallback]
    | some span => simp only [anthropicNormalize, hs, h span hs, rawFallback]
  · intro content hne hspan hnospan
    cases hs : jsonSpan (stripFences content) with
    | none =>
      simp only [googleNormalize, hs, hnospan hs, google500, if_neg hne]
    | some span =>
      simp only [googleNormalize, hs, hspan span hs, google500, if_neg hne]

/-- C5 (witness): the plain prose "oops" through each adapter. -/
theorem c5_witness :
    openAiNormalize ("oops".data) =
      ⟨.str ("oops".data), .arr [], .arr [], .arr [], .arr []⟩ ∧
    anthropicNormalize ("oops".data) =
      ⟨.str ("oops".data), .arr [], .arr [], .arr [], .arr []⟩ ∧
    googleNormalize ("oops".data) =
      ⟨.str (("oops".data).take 500), .arr [], .arr [], .arr [], .arr []⟩ :=
  ⟨c5_parse_failure_degrades.1 ("oops".data) rfl,
   c5_parse_failure_degrades.2.1 ("oops".data)
     (fun span h => by
       rw [show jsonSpan ("oops".data) = none from rfl] at h
       cases h),
   c5_parse_failure_degrades.2.2 ("oops".data) (by decide)
     (fun span h => by
       rw [show jsonSpan (stripFences ("oops".data)) = none from rfl] at h
       cases h)
     (fun _ => rfl)⟩

/-- The four coerced array fields of the adapters' result object. -/
inductive ArrField
  | bulletPoints
  | highlights
  | tickets
  | untracked
deriving DecidableEq

def fieldName : ArrField → List Char
  | .bulletPoints => "bulletPoints".data
  | .highlights => "highlights".data
  | .tickets => "tickets".data
  | .untracked => "untracked".data

def getArrField (s : JsSummary) : ArrField → JVal
  | .bulletPoints => s.bulletPoints
  | .highlights => s.highlights
  | .tickets => s.tickets
  | .untracked => s.untracked

/-- C6 (counterexample): the OpenAI adapter coerces with `||`, so a truthy
non-array value — here the string "x" under `tickets` — is propagated into
the result instead of being treated as empty. -/
theorem c6_counterexample :
    (openAiNormalize ("\x7b\"tickets\":\"x\"\x7d".data)).tickets =
      JVal.str ("x".data) ∧
    JVal.str ("x".data) ≠ JVal.arr [] :=
  ⟨rfl, fun h => JVal.noConfusion h⟩

/-- C6 (amended): after a successful parse each of the four fields is
coerced independently; a missing field defaults to the empty array in every
adapter, but a non-array value is emptied only by the Google adapter
(`Array.isArray`), while the OpenAI and Anthropic adapters (`||`) propagate
any truthy non-array value unchanged. -/
theorem c6_field_coercion :
    (∀ content fs f, jsonParse content = some (.obj fs) →
      objGet fs (fieldName f) = none →
      getArrField (openAiNormalize content) f = .arr []) ∧
    (∀ content fs f v, jsonParse content = some (.obj fs) →
      objGet fs (fieldName f) = some v → truthy v = true →
      getArrField (openAiNormalize content) f = v) ∧
    (∀ content span fs f v, jsonSpan content = some span →
      jsonParse span = some (.obj fs) →
      objGet fs (fieldName f) = some v → truthy v = true →
      getArrField (anthropicNormalize content) f = v) ∧
    (∀ content span fs f, jsonSpan content = some span →
      jsonParse span = some (.obj fs) →
      objGet fs (fieldName f) = none →
      getArrField (anthropicNormalize content) f = .arr []) ∧
    (∀ content span fs f, jsonSpan (stripFences content) = some span →
      jsonParse span = some (.obj fs) →
      (∀ v, objGet fs (fieldName f) = some v → isArr v = false) →
      getArrField (googleNormalize content) f = .arr []) := by
  refine ⟨?_, ?_, ?_, ?_, ?_⟩
  · intro content fs f hp hnone
    simp only [openAiNormalize, hp]
    cases f <;> simp only [fieldName] at hnone <;>
      simp [orCoerce, getArrField, getField, fieldName, hnone, jsOr, truthy]
  · intro content fs f v hp hsome htr
    simp only [openAiNormalize, hp]
    cases f <;> simp only [fieldName] at hsome <;>
      simp [orCoerce, getArrField, getField, fieldName, hsome, jsOr, htr]
  · intro content span fs f v hspan hp hsome htr
    simp only [anthropicNormalize, hspan, hp]
    cases f <;> simp only [fieldName] at hsome <;>
      simp [orCoerce, getArrField, getField, fieldName, hsome, jsOr, htr]
  · intro content span fs f hspan hp hnone
    simp only [anthropicNormalize, hspan, hp]
    cases f <;> simp only [fieldName] at hnone <;>
      simp [orCoerce, getArrField, getField, fieldName, hnone, jsOr, truthy]
  · intro content span fs f hspan hp hna
    simp only [googleNormalize, hspan, hp]
    have hga : isArr (getField (.obj fs) (fieldName f)) = false := by
      simp only [getField]
      cases ho : objGet fs (fieldName f) with
      | none => rfl
      | some v => exact hna v ho
    cases f <;> simp only [fieldName] at hga <;> simp [getArrField, hga]

/-- C6 (witness): `{"tickets":"x"}` through the OpenAI adapter propagates
the string. -/
theorem c6_witness :
    getArrField (openAiNormalize ("\x7b\"tickets\":\"x\"\x7d".data))
      ArrField.tickets = JVal.str ("x".data) :=
  c6_field_coercion.2.1 ("\x7b\"tickets\":\"x\"\x7d".data)
    [("tickets".data, JVal.str ("x".data))] ArrField.tickets
    (JVal.str ("x".data)) rfl rfl rfl

end StandUp
